import Mathlib

/-!
# sysmond: registration and polling of monitors

A shallow embedding of `sysmond.go`: the metric key and evaluator helpers,
the polling loop of `startMonitor`, and the program as it runs: `main` and one
goroutine per monitor, each running `startMonitor`, interleaved step by step
over the shared registry and the shared map `MONITOR_FIELD_METRICS`.

Two things the source imports are not part of it and are taken as follows.

* `sysmon.Monitor` is an interface.  It is a record of operations over an
  arbitrary monitor state `σ` and value type `V` (the source's `float64`;
  nothing here computes with it).
* The Prometheus client is represented by the rules of it that the source
  depends on: how a fully-qualified metric name is built from `Subsystem` and
  `Name`, when `Register` returns an error, and what `promhttp.Handler()`
  registers.  Which non-empty strings are valid metric names differs between
  releases of the client, so that predicate is an argument (`validName`);
  `legacyValidName` is the classic one.  The empty string is a valid metric
  name in no release.
-/

namespace Sysmond

/-! ## The monitor interface -/

/-- The operations of `sysmon.Monitor` that `sysmond.go` calls.  `Init`
returns `none` when it ends the process instead of returning (the source
discards whatever `Init` returns, so no other failure is visible to it);
`UpdateValues` returns the new monitor state and whether its `error` result
was non-nil; `GetUptime` is a duration in nanoseconds. -/
structure Monitor (σ V : Type) where
  Name : String
  Init : σ → Option σ
  GetFields : σ → List String
  GetValue : σ → String → V
  UpdateValues : σ → σ × Bool
  GetUptime : σ → Nat

/-! ## The Prometheus client, as far as the source relies on it -/

/-- The function `prometheus.BuildFQName`: the non-empty ones among namespace,
subsystem and name joined by underscores; empty when the name is empty. -/
def BuildFQName (ns subsystem name : String) : String :=
  if name = "" then ""
  else if ns ≠ "" ∧ subsystem ≠ "" then ns ++ "_" ++ subsystem ++ "_" ++ name
  else if ns ≠ "" then ns ++ "_" ++ name
  else if subsystem ≠ "" then subsystem ++ "_" ++ name
  else name

/-- The options record `prometheus.CounterOpts` / `prometheus.GaugeOpts`
(those of its members the source sets; `Namespace` is never set). -/
structure Opts where
  Subsystem : String
  Name : String
  Help : String
deriving DecidableEq, Repr

/-- What kind of collector a constructor call made. -/
inductive Kind where
  | counter
  | gaugeFunc
  | counterVec
  | gauge
deriving DecidableEq, Repr

/-- A collector: its kind and its options. -/
structure Collector where
  kind : Kind
  opts : Opts
deriving DecidableEq, Repr

/-- Constructor `prometheus.NewCounter`. -/
def NewCounter (o : Opts) : Collector := { kind := Kind.counter, opts := o }

/-- Constructor `prometheus.NewGaugeFunc` (the function argument is the
evaluator, which is determined by the monitor and the field, see
`getEvaluator`). -/
def NewGaugeFunc (o : Opts) : Collector := { kind := Kind.gaugeFunc, opts := o }

/-- The name under which a collector is exported. -/
def Collector.fqName (c : Collector) : String :=
  BuildFQName "" c.opts.Subsystem c.opts.Name

/-- The classic metric-name rule `[a-zA-Z_:][a-zA-Z0-9_:]*`. -/
def legacyValidName (s : String) : Bool :=
  match s.data with
  | [] => false
  | c :: cs =>
    (c.isAlpha || c == '_' || c == ':') &&
      cs.all (fun d => d.isAlpha || d.isDigit || d == '_' || d == ':')

/-- The method `Register` of the default registry, whose content is the list
of exported names: an error (`none`) when the collector's name is not a valid
metric name or is registered already, otherwise the name is added. -/
def Register (validName : String → Bool) (registry : List String) (c : Collector) :
    Option (List String) :=
  if validName c.fqName = false then none
  else if c.fqName ∈ registry then none
  else some (registry ++ [c.fqName])

/-! ## The source: globals, helpers, the polling loop -/

/-- The process-wide state the source shares between goroutines: the default
Prometheus registry (the exported names in it), the map
`MONITOR_FIELD_METRICS`, and the flag the Go runtime keeps in a map while an
assignment to it is under way. -/
structure Core where
  registry : List String
  fieldMetrics : List (String × Collector)
  mapWriting : Bool
deriving DecidableEq, Repr

/-- Assignment `m[k] = v` on a map kept as an association list. -/
def mapSet (m : List (String × Collector)) (k : String) (v : Collector) :
    List (String × Collector) :=
  (k, v) :: m.filter (fun e => e.1 != k)

/-- Lookup `m[k]` on a map kept as an association list; `none` is the nil
value Go gives for a key that is not in the map. -/
def mapGet (m : List (String × Collector)) (k : String) : Option Collector :=
  (m.find? (fun e => e.1 == k)).map (fun e => e.2)

/-- Source function `getFieldKey`: `fmt.Sprintf("%v_%v", mon.Name(), field)`. -/
def getFieldKey {σ V : Type} (mon : Monitor σ V) (field : String) : String :=
  mon.Name ++ "_" ++ field

/-- Source function `getEvaluator`: a closure over the monitor and the field;
each call reads the monitor as it is at the time of the call. -/
def getEvaluator {σ V : Type} (mon : Monitor σ V) (field : String) : σ → V :=
  fun st => mon.GetValue st field

/-- How the process can end: `Init` ended it; `MustRegister` panicked;
`Register` of a field returned an error and `log.Fatal` was called;
`http.ListenAndServe` failed; the Go runtime found two assignments to the map
under way at once, or a read of the map during an assignment; `Register` was
handed a nil collector; `promhttp.Handler()` panicked on registering its own
metrics. -/
inductive Fatal where
  | initAborted
  | mustRegisterPanic (name : String)
  | registerFailed (fieldKey : String)
  | listenFailed
  | concurrentMapWrites
  | concurrentMapReadWrite
  | nilCollector
  | handlerPanic (name : String)
deriving DecidableEq, Repr

/-- The counter `errMetric` of `startMonitor`. -/
def errMetricOf {σ V : Type} (mon : Monitor σ V) : Collector :=
  NewCounter
    { Subsystem := mon.Name, Name := "errors",
      Help := "Errors for Monitor(" ++ mon.Name ++ ")" }

/-- The gauge `uptimeMetric` of `startMonitor`. -/
def uptimeMetricOf {σ V : Type} (mon : Monitor σ V) : Collector :=
  NewGaugeFunc
    { Subsystem := mon.Name, Name := "uptime", Help := "Uptime for " ++ mon.Name }

/-- The gauge made for one field in the loop of `startMonitor`. -/
def fieldMetricOf {σ V : Type} (mon : Monitor σ V) (field : String) : Collector :=
  NewGaugeFunc
    { Subsystem := mon.Name, Name := field,
      Help := field ++ " as reported by " ++ mon.Name }

/-- Call `prometheus.MustRegister`: it panics where `Register` returns an
error. -/
def MustRegister (validName : String → Bool) (c : Core) (m : Collector) :
    Except Fatal Core :=
  match Register validName c.registry m with
  | none => Except.error (Fatal.mustRegisterPanic m.fqName)
  | some r => Except.ok { c with registry := r }

/-- One pass of the polling loop of `startMonitor`: `UpdateValues`, and
`errMetric.Inc()` when it returned an error.  The pair is the monitor state
and the value of `errMetric`. -/
def pollCycle {σ V : Type} (mon : Monitor σ V) (s : σ × Nat) : σ × Nat :=
  let r := mon.UpdateValues s.1
  (r.1, if r.2 then s.2 + 1 else s.2)

/-- The first `n` passes of the polling loop. -/
def pollLoop {σ V : Type} (mon : Monitor σ V) : Nat → σ × Nat → σ × Nat
  | 0, s => s
  | n + 1, s => pollLoop mon n (pollCycle mon s)

/-- Whether `UpdateValues` returned an error in each of the first `n` passes
of the polling loop started on monitor state `st`. -/
def updateResults {σ V : Type} (mon : Monitor σ V) : Nat → σ → List Bool
  | 0, _ => []
  | n + 1, st => (mon.UpdateValues st).2 :: updateResults mon n (mon.UpdateValues st).1

/-- The names of a monitor's metrics by the naming convention:
`<name>_errors`, `<name>_uptime` and the field keys `<name>_<field>`, in the
order of registration. -/
def metricKeys {σ V : Type} (mon : Monitor σ V) (fields : List String) : List String :=
  (mon.Name ++ "_errors") :: (mon.Name ++ "_uptime") :: fields.map (getFieldKey mon)

/-- The exported names of the collectors `startMonitor` makes, in the order
in which it makes them. -/
def metricNames {σ V : Type} (mon : Monitor σ V) (fields : List String) : List String :=
  (errMetricOf mon).fqName :: (uptimeMetricOf mon).fqName ::
    fields.map (fun f => (fieldMetricOf mon f).fqName)

/-! ## The source as it runs: `main`, `startMonitors`, `startMonitor` -/

/-- A ticker made by `time.NewTicker`: which one it is and its period in
nanoseconds. -/
structure Ticker where
  id : Nat
  period : Nat
deriving DecidableEq, Repr

/-- The constant `time.Millisecond`, in nanoseconds. -/
def Millisecond : Nat := 1000000

/-- Call `time.NewTicker(d)`, when `made` tickers have been made before. -/
def NewTicker (made : Nat) (d : Nat) : Ticker := { id := made, period := d }

/-- Where a goroutine running `startMonitor` stands: before `Init`; before
registering the error counter; before registering the uptime gauge; at the
head of the field loop with the fields still to do; inside the assignment
`MONITOR_FIELD_METRICS[fieldKey] = ...` of a field; before reading
`MONITOR_FIELD_METRICS[fieldKey]` back; before the call of `Register` on the
value read; in the polling loop; or ended together with the process. -/
inductive Pc where
  | init
  | regErrors
  | regUptime
  | fieldLoop (rest : List String)
  | fieldStore (field : String) (rest : List String)
  | fieldLoad (field : String) (rest : List String)
  | fieldRegister (field : String) (read : Option Collector) (rest : List String)
  | polling
  | dead
deriving DecidableEq, Repr

/-- A goroutine `go startMonitor(mon, ticker)`: its arguments, the monitor
state, where it stands and the value of its `errMetric`.  Three members record
history and influence nothing: the monitor state at the start, the names
registered by this goroutine, and the number of `UpdateValues` calls. -/
structure PollUnit (σ V : Type) where
  mon : Monitor σ V
  ticker : Ticker
  st : σ
  pc : Pc
  errors : Nat
  st0 : σ
  registered : List String
  updates : Nat

/-- Where the main goroutine stands: in `startMonitors`; in
`promhttp.Handler()` before it registers its request counter; in
`promhttp.Handler()` before it registers its in-flight gauge; before
`http.ListenAndServe`; inside `http.ListenAndServe`. -/
inductive MainPc where
  | startMonitors
  | handlerCounter
  | handlerGauge
  | listen
  | serving
deriving DecidableEq, Repr

/-- The process: where the main goroutine stands, the elements of `MONITORS`
that `startMonitors` has not reached yet, the goroutines started, the shared
state, the number of tickers made, whether the main goroutine is in
`http.ListenAndServe`, whether the port can be bound, and how the process
ended if it did. -/
structure Proc (σ V : Type) where
  mainPc : MainPc
  pending : List (Monitor σ V × σ)
  units : List (PollUnit σ V)
  core : Core
  tickers : Nat
  serving : Bool
  portFree : Bool
  exited : Option Fatal

/-- The statement `go startMonitor(mon, ticker)`: a goroutine at the start of
`startMonitor`. -/
def goStartMonitor {σ V : Type} (m : Monitor σ V × σ) (ticker : Ticker) : PollUnit σ V :=
  { mon := m.1, ticker := ticker, st := m.2, pc := Pc.init, errors := 0, st0 := m.2,
    registered := [], updates := 0 }

/-- One iteration of the loop of `startMonitors`: a new ticker of 500 ms and a
new goroutine for the monitor. -/
def spawn {σ V : Type} (p : Proc σ V) (m : Monitor σ V × σ) : Proc σ V :=
  { p with
    units := p.units ++ [goStartMonitor m (NewTicker p.tickers (Millisecond * 500))],
    tickers := p.tickers + 1 }

/-- Source function `startMonitors`, run on the monitors still pending. -/
def startMonitors {σ V : Type} (p : Proc σ V) : Proc σ V :=
  p.pending.foldl spawn { p with pending := [] }

/-- The request counter that `promhttp.Handler()` registers in the default
registry. -/
def handlerCounterMetric : Collector :=
  { kind := Kind.counterVec,
    opts :=
      { Subsystem := "", Name := "promhttp_metric_handler_requests_total",
        Help := "Total number of scrapes by HTTP status code." } }

/-- The in-flight gauge that `promhttp.Handler()` registers in the default
registry. -/
def handlerGaugeMetric : Collector :=
  { kind := Kind.gauge,
    opts :=
      { Subsystem := "", Name := "promhttp_metric_handler_requests_in_flight",
        Help := "Current number of scrapes being served." } }

/-- One step of the main goroutine: the next iteration of the loop of
`startMonitors`; its return; the two registrations inside
`promhttp.Handler()`, each of which panics when `Register` returns an error
(a collector registered under the same name by a monitor has another help
string, so the error is not the one the handler tolerates);
`http.ListenAndServe`, which is fatal when the port cannot be bound and
otherwise does not return. -/
def mainStep {σ V : Type} (validName : String → Bool) (p : Proc σ V) : Proc σ V :=
  match p.mainPc with
  | MainPc.startMonitors =>
    match p.pending with
    | m :: rest => spawn { p with pending := rest } m
    | [] => { p with mainPc := MainPc.handlerCounter }
  | MainPc.handlerCounter =>
    match Register validName p.core.registry handlerCounterMetric with
    | none => { p with exited := some (Fatal.handlerPanic handlerCounterMetric.fqName) }
    | some r => { p with mainPc := MainPc.handlerGauge, core := { p.core with registry := r } }
  | MainPc.handlerGauge =>
    match Register validName p.core.registry handlerGaugeMetric with
    | none => { p with exited := some (Fatal.handlerPanic handlerGaugeMetric.fqName) }
    | some r => { p with mainPc := MainPc.listen, core := { p.core with registry := r } }
  | MainPc.listen =>
    if p.portFree then { p with mainPc := MainPc.serving, serving := true }
    else { p with exited := some Fatal.listenFailed }
  | MainPc.serving => p

/-- One pass of the polling loop in a goroutine: `pollCycle` on its monitor
state and its `errMetric`. -/
def pollOnce {σ V : Type} (u : PollUnit σ V) : PollUnit σ V :=
  { u with st := (pollCycle u.mon (u.st, u.errors)).1,
           errors := (pollCycle u.mon (u.st, u.errors)).2,
           updates := u.updates + 1 }

/-- One step of a goroutine running `startMonitor`, on the shared state: the
new shared state, the goroutine afterwards, and the way the process ended if
the step was fatal.  The assignment to the map takes two steps, between which
the runtime's flag is set; an assignment that starts, or a read that happens,
while the flag is set ends the process.  `Register` is called on the value
read back from the map, which is the last one assigned under the key by any
goroutine. -/
def unitStep {σ V : Type} (validName : String → Bool) (c : Core) (u : PollUnit σ V) :
    Core × PollUnit σ V × Option Fatal :=
  match u.pc with
  | Pc.init =>
    match u.mon.Init u.st with
    | none => (c, { u with pc := Pc.dead }, some Fatal.initAborted)
    | some st1 => (c, { u with st := st1, pc := Pc.regErrors }, none)
  | Pc.regErrors =>
    match MustRegister validName c (errMetricOf u.mon) with
    | Except.error e => (c, { u with pc := Pc.dead }, some e)
    | Except.ok c1 =>
      (c1, { u with pc := Pc.regUptime, errors := 0,
                    registered := u.registered ++ [(errMetricOf u.mon).fqName] }, none)
  | Pc.regUptime =>
    match MustRegister validName c (uptimeMetricOf u.mon) with
    | Except.error e => (c, { u with pc := Pc.dead }, some e)
    | Except.ok c1 =>
      (c1, { u with pc := Pc.fieldLoop (u.mon.GetFields u.st),
                    registered := u.registered ++ [(uptimeMetricOf u.mon).fqName] }, none)
  | Pc.fieldLoop [] => (c, { u with pc := Pc.polling }, none)
  | Pc.fieldLoop (field :: rest) =>
    if c.mapWriting then (c, { u with pc := Pc.dead }, some Fatal.concurrentMapWrites)
    else ({ c with mapWriting := true }, { u with pc := Pc.fieldStore field rest }, none)
  | Pc.fieldStore field rest =>
    if c.mapWriting then
      ({ c with fieldMetrics :=
            mapSet c.fieldMetrics (getFieldKey u.mon field) (fieldMetricOf u.mon field),
                mapWriting := false },
        { u with pc := Pc.fieldLoad field rest }, none)
    else (c, { u with pc := Pc.dead }, some Fatal.concurrentMapWrites)
  | Pc.fieldLoad field rest =>
    if c.mapWriting then (c, { u with pc := Pc.dead }, some Fatal.concurrentMapReadWrite)
    else
      (c, { u with pc := Pc.fieldRegister field
                      (mapGet c.fieldMetrics (getFieldKey u.mon field)) rest }, none)
  | Pc.fieldRegister _ none _ => (c, { u with pc := Pc.dead }, some Fatal.nilCollector)
  | Pc.fieldRegister field (some col) rest =>
    match Register validName c.registry col with
    | none => (c, { u with pc := Pc.dead }, some (Fatal.registerFailed (getFieldKey u.mon field)))
    | some r =>
      ({ c with registry := r },
        { u with pc := Pc.fieldLoop rest, registered := u.registered ++ [col.fqName] }, none)
  | Pc.polling => (c, pollOnce u, none)
  | Pc.dead => (c, u, none)

/-- One step of the process: of the main goroutine (`none`) or of the
goroutine started for the `i`-th monitor (`some i`).  Nothing runs once the
process has ended, and a goroutine not started yet cannot step. -/
def step {σ V : Type} (validName : String → Bool) (p : Proc σ V) (who : Option Nat) :
    Proc σ V :=
  match p.exited with
  | some _ => p
  | none =>
    match who with
    | none => mainStep validName p
    | some i =>
      match p.units[i]? with
      | none => p
      | some u =>
        { p with core := (unitStep validName p.core u).1,
                 units := p.units.set i (unitStep validName p.core u).2.1,
                 exited := (unitStep validName p.core u).2.2 }

/-- An execution: the steps of a schedule, in order. -/
def run {σ V : Type} (validName : String → Bool) (p : Proc σ V)
    (sched : List (Option Nat)) : Proc σ V :=
  sched.foldl (step validName) p

/-- The process at the start of `main`: the monitors of `MONITORS` in their
initial states, the registry as the client library set it up, an empty
`MONITOR_FIELD_METRICS`. -/
def boot {σ V : Type} (MONITORS : List (Monitor σ V × σ)) (registry : List String)
    (portFree : Bool) : Proc σ V :=
  { mainPc := MainPc.startMonitors, pending := MONITORS, units := [],
    core := { registry := registry, fieldMetrics := [], mapWriting := false },
    tickers := 0, serving := false, portFree := portFree, exited := none }

/-- A goroutine running on its own for at most `n` steps, stopping when a
step ends the process. -/
def unitRun {σ V : Type} (validName : String → Bool) :
    Nat → Core → PollUnit σ V → Core × PollUnit σ V × Option Fatal
  | 0, c, u => (c, u, none)
  | n + 1, c, u =>
    match unitStep validName c u with
    | (c1, u1, some e) => (c1, u1, some e)
    | (c1, u1, none) => unitRun validName n c1 u1

/-! ## What every execution keeps -/

/-- What holds of a goroutine at each point of `startMonitor`, whatever the
monitors are: before `Init` nothing has been done; during set-up `Init` has
succeeded and nothing has been polled; in the polling loop `Init` has
succeeded; a goroutine that ended was never polled, and registered nothing if
its `Init` failed. -/
def unitInv {σ V : Type} (u : PollUnit σ V) : Prop :=
  match u.pc with
  | Pc.init => u.st = u.st0 ∧ u.registered = [] ∧ u.updates = 0
  | Pc.regErrors => u.mon.Init u.st0 = some u.st ∧ u.registered = [] ∧ u.updates = 0
  | Pc.polling => ∃ st1, u.mon.Init u.st0 = some st1
  | Pc.dead => u.updates = 0 ∧ (u.mon.Init u.st0 = none → u.registered = [])
  | _ => u.mon.Init u.st0 = some u.st ∧ u.updates = 0

/-- What holds of the names a goroutine has registered when no monitor has
the empty name: they are the keys of the error counter, of the uptime gauge
and of the fields already done, and a value read back from the map is
exported under the key it was read from or under the empty name. -/
def keyInv {σ V : Type} (u : PollUnit σ V) : Prop :=
  match u.pc with
  | Pc.regUptime => u.registered = [u.mon.Name ++ "_errors"]
  | Pc.fieldLoop rest =>
    ∃ done, u.mon.GetFields u.st = done ++ rest ∧ u.registered = metricKeys u.mon done
  | Pc.fieldStore field rest =>
    ∃ done, u.mon.GetFields u.st = done ++ field :: rest ∧
      u.registered = metricKeys u.mon done
  | Pc.fieldLoad field rest =>
    ∃ done, u.mon.GetFields u.st = done ++ field :: rest ∧
      u.registered = metricKeys u.mon done
  | Pc.fieldRegister field read rest =>
    (∃ done, u.mon.GetFields u.st = done ++ field :: rest ∧
      u.registered = metricKeys u.mon done) ∧
    ∀ col, read = some col → col.fqName = getFieldKey u.mon field ∨ col.fqName = ""
  | Pc.polling =>
    ∃ st1, u.mon.Init u.st0 = some st1 ∧
      u.registered = metricKeys u.mon (u.mon.GetFields st1)
  | _ => True

/-- Every value in the map is exported under its key or under the empty
name. -/
def mapOK (m : List (String × Collector)) : Prop :=
  ∀ e ∈ m, e.2.fqName = e.1 ∨ e.2.fqName = ""

/-- What holds of the error counter of a goroutine: it is 0 until the polling
loop is entered, and in the polling loop the monitor state and the counter are
what `pollLoop` gives, from the state after `Init` and the counter 0, for the
number of `UpdateValues` calls made so far. -/
def errInv {σ V : Type} (u : PollUnit σ V) : Prop :=
  match u.pc with
  | Pc.polling =>
    ∃ st1, u.mon.Init u.st0 = some st1 ∧
      (u.st, u.errors) = pollLoop u.mon u.updates (st1, 0)
  | _ => u.errors = 0

/-- What holds of the process in every execution from `boot`: the goroutines
started and the monitors pending are `MONITORS`; every goroutine satisfies
`unitInv`, and one that ended did so together with the process, which ended
by `Init` if the `Init` of that goroutine fails; the names registered by the
goroutines are pairwise different, and each occurs once in the registry. -/
def procInv {σ V : Type} (MONITORS : List (Monitor σ V × σ)) (p : Proc σ V) : Prop :=
  p.units.map (fun u => (u.mon, u.st0)) ++ p.pending = MONITORS ∧
  (∀ u ∈ p.units, unitInv u ∧ (u.pc = Pc.dead → p.exited ≠ none) ∧
    (u.pc = Pc.dead → u.mon.Init u.st0 = none → p.exited = some Fatal.initAborted)) ∧
  (p.units.flatMap (fun u => u.registered)).Nodup ∧
  (∀ x ∈ p.units.flatMap (fun u => u.registered), p.core.registry.count x = 1)

/-! ## Example monitors -/

/-- State of a scripted monitor: the measurements still to come (`none` is a
measurement that cannot be completed) and the value last measured. -/
structure Scripted where
  script : List (Option ℚ)
  current : ℚ
deriving DecidableEq

/-- A monitor with a given name and field list whose `UpdateValues` takes the
next scripted measurement, reporting an error and keeping the last value when
the measurement could not be completed.  Every field reads the last value. -/
def scriptedMonitor (name : String) (fields : List String) : Monitor Scripted ℚ where
  Name := name
  Init := fun st => some st
  GetFields := fun _ => fields
  GetValue := fun st _ => st.current
  UpdateValues := fun st =>
    match st.script with
    | [] => (st, false)
    | none :: rest => ({ st with script := rest }, true)
    | some v :: rest => ({ script := rest, current := v }, false)
  GetUptime := fun _ => 0

/-- The monitor `disk` with the single field `free_pct`. -/
def diskMonitor : Monitor Scripted ℚ := scriptedMonitor "disk" ["free_pct"]

/-- A monitor whose `Init` ends the process. -/
def brokenMonitor (name : String) : Monitor Scripted ℚ :=
  { scriptedMonitor name [] with Init := fun _ => none }

/-- Example `MONITORS`: `disk`, and `net` whose `Init` ends the process. -/
def diskAndBrokenNet : List (Monitor Scripted ℚ × Scripted) :=
  [(diskMonitor, { script := [some 87.5], current := 0 }),
   (brokenMonitor "net", { script := [], current := 0 })]

/-- Example `MONITORS`: `a` with field `b_c` and `a_b` with field `c`, which
share the name `a_b_c`. -/
def collidingPair : List (Monitor Scripted ℚ × Scripted) :=
  [(scriptedMonitor "a" ["b_c"], { script := [], current := 0 }),
   (scriptedMonitor "a_b" ["c"], { script := [], current := 0 })]

/-- Example `MONITORS`: `_a` with field `b` and the monitor with the empty
name and field `a_b`, which share the key `_a_b` and are exported as `_a_b`
and `a_b`. -/
def sharedKeyPair : List (Monitor Scripted ℚ × Scripted) :=
  [(scriptedMonitor "_a" ["b"], { script := [], current := 0 }),
   (scriptedMonitor "" ["a_b"], { script := [], current := 0 })]

/-- A schedule in which goroutine `i` takes `n` steps in a row. -/
def steps (i n : Nat) : List (Option Nat) := List.replicate n (some i)

/-! ## Naming -/

theorem BuildFQName_subsystem (subsystem name : String) (hs : subsystem ≠ "")
    (hn : name ≠ "") : BuildFQName "" subsystem name = subsystem ++ "_" ++ name := by
  simp [BuildFQName, hs, hn]

theorem BuildFQName_empty_name (subsystem : String) : BuildFQName "" subsystem "" = "" := by
  simp [BuildFQName]

theorem BuildFQName_empty_subsystem (name : String) : BuildFQName "" "" name = name := by
  by_cases h : name = "" <;> simp [BuildFQName, h]

theorem fieldMetric_fqName {σ V : Type} (mon : Monitor σ V) (field : String)
    (hs : mon.Name ≠ "") (hf : field ≠ "") :
    (fieldMetricOf mon field).fqName = getFieldKey mon field := by
  simp [fieldMetricOf, NewGaugeFunc, Collector.fqName, getFieldKey, BuildFQName, hs, hf]

theorem errMetric_fqName {σ V : Type} (mon : Monitor σ V) (hs : mon.Name ≠ "") :
    (errMetricOf mon).fqName = mon.Name ++ "_errors" := by
  simp only [errMetricOf, NewCounter, Collector.fqName]
  rw [BuildFQName_subsystem _ _ hs (by decide), String.append_assoc]
  rfl

theorem uptimeMetric_fqName {σ V : Type} (mon : Monitor σ V) (hs : mon.Name ≠ "") :
    (uptimeMetricOf mon).fqName = mon.Name ++ "_uptime" := by
  simp only [uptimeMetricOf, NewGaugeFunc, Collector.fqName]
  rw [BuildFQName_subsystem _ _ hs (by decide), String.append_assoc]
  rfl

/-- With a non-empty monitor name and non-empty field names the exported
names are the keys. -/
theorem metricNames_eq_metricKeys {σ V : Type} (mon : Monitor σ V) (fields : List String)
    (hs : mon.Name ≠ "") (hf : ∀ f ∈ fields, f ≠ "") :
    metricNames mon fields = metricKeys mon fields := by
  unfold metricNames metricKeys
  rw [errMetric_fqName mon hs, uptimeMetric_fqName mon hs]
  congr 2
  apply List.map_congr_left
  intro f hfm
  exact fieldMetric_fqName mon f hs (hf f hfm)

/-- Splitting a list at its first underscore is unambiguous. -/
theorem split_at_sep_unique (sep : Char) :
    ∀ (l1 l2 r1 r2 : List Char), sep ∉ l1 → sep ∉ l2 →
      l1 ++ sep :: r1 = l2 ++ sep :: r2 → l1 = l2 ∧ r1 = r2 := by
  intro l1
  induction l1 with
  | nil =>
    intro l2 r1 r2 _ h2 h
    cases l2 with
    | nil => simpa using h
    | cons b t =>
      simp only [List.nil_append, List.cons_append, List.cons.injEq] at h
      exact absurd (h.1 ▸ List.mem_cons_self b t) h2
  | cons a t ih =>
    intro l2 r1 r2 h1 h2 h
    cases l2 with
    | nil =>
      simp only [List.nil_append, List.cons_append, List.cons.injEq] at h
      exact absurd (h.1 ▸ List.mem_cons_self a t) h1
    | cons b u =>
      simp only [List.cons_append, List.cons.injEq] at h
      have ht : sep ∉ t := fun hm => h1 (List.mem_cons_of_mem a hm)
      have hu : sep ∉ u := fun hm => h2 (List.mem_cons_of_mem b hm)
      obtain ⟨e1, e2⟩ := ih u r1 r2 ht hu h.2
      exact ⟨by rw [h.1, e1], e2⟩

/-- Two keys `n1_f1` and `n2_f2` that are equal come from the same pair when
the names have the same length or contain no underscore. -/
theorem key_eq_cases (n1 n2 f1 f2 : String)
    (hn : n1.length = n2.length ∨ ('_' ∉ n1.data ∧ '_' ∉ n2.data))
    (h : n1 ++ "_" ++ f1 = n2 ++ "_" ++ f2) : n1 = n2 ∧ f1 = f2 := by
  have hd : n1.data ++ '_' :: f1.data = n2.data ++ '_' :: f2.data := by
    have h0 := congrArg String.data h
    have hu : "_".data = ['_'] := rfl
    simp only [String.data_append, hu, List.append_assoc, List.singleton_append] at h0
    exact h0
  rcases hn with hl | ⟨h1, h2⟩
  · have hl2 : n1.data.length = n2.data.length := hl
    have e1 := List.append_inj_left hd hl2
    have e2 := List.append_inj_right hd hl2
    simp only [List.cons.injEq, true_and] at e2
    exact ⟨String.ext e1, String.ext e2⟩
  · obtain ⟨e1, e2⟩ := split_at_sep_unique '_' _ _ _ _ h1 h2 hd
    exact ⟨String.ext e1, String.ext e2⟩

/-- C4 (as stated, at a monitor with the empty name): the error counter is
exported as `errors`, which is not the name followed by `_errors`. -/
theorem C4_counterexample :
    (errMetricOf (scriptedMonitor "" ["free_pct"])).fqName = "errors" ∧
    (errMetricOf (scriptedMonitor "" ["free_pct"])).fqName
      ≠ (scriptedMonitor "" ["free_pct"]).Name ++ "_errors" ∧
    (fieldMetricOf (scriptedMonitor "" ["free_pct"]) "free_pct").fqName
      ≠ getFieldKey (scriptedMonitor "" ["free_pct"]) "free_pct" := by
  decide

/-- C4 (amended): the field key is the monitor name, one underscore and the
field; the two fixed metrics are made with the monitor name as subsystem and
the names `errors` and `uptime`; and for a monitor with a non-empty name they
are exported as `<name>_errors` and `<name>_uptime`, and a non-empty field is
exported under its key. -/
theorem C4_naming {σ V : Type} (mon : Monitor σ V) (field : String) :
    getFieldKey mon field = mon.Name ++ "_" ++ field ∧
    (errMetricOf mon).kind = Kind.counter ∧
    (errMetricOf mon).opts.Subsystem = mon.Name ∧ (errMetricOf mon).opts.Name = "errors" ∧
    (uptimeMetricOf mon).kind = Kind.gaugeFunc ∧
    (uptimeMetricOf mon).opts.Subsystem = mon.Name ∧
    (uptimeMetricOf mon).opts.Name = "uptime" ∧
    (fieldMetricOf mon field).opts.Subsystem = mon.Name ∧
    (fieldMetricOf mon field).opts.Name = field ∧
    (mon.Name ≠ "" →
      (errMetricOf mon).fqName = mon.Name ++ "_errors" ∧
      (uptimeMetricOf mon).fqName = mon.Name ++ "_uptime" ∧
      (field ≠ "" → (fieldMetricOf mon field).fqName = getFieldKey mon field)) :=
  ⟨rfl, rfl, rfl, rfl, rfl, rfl, rfl, rfl, rfl, fun hs =>
    ⟨errMetric_fqName mon hs, uptimeMetric_fqName mon hs,
      fun hf => fieldMetric_fqName mon field hs hf⟩⟩

/-- C4 (amended), at the monitor `disk` and its field `free_pct`. -/
theorem C4_naming_witness :
    (errMetricOf diskMonitor).fqName = "disk_errors" ∧
    (uptimeMetricOf diskMonitor).fqName = "disk_uptime" ∧
    (fieldMetricOf diskMonitor "free_pct").fqName = "disk_free_pct" := by
  have h := (C4_naming diskMonitor "free_pct").2.2.2.2.2.2.2.2.2 (by decide)
  exact ⟨h.1, h.2.1, h.2.2 (by decide)⟩

/-- C10 (as stated): the pairs `(a, b_c)` and `(a_b, c)` are different and
have the same key, and with the two monitors in `MONITORS` the entry of
`MONITOR_FIELD_METRICS` under that key, written for the first pair, is
overwritten for the second. -/
theorem C10_counterexample :
    getFieldKey (scriptedMonitor "a" ["b_c"]) "b_c"
      = getFieldKey (scriptedMonitor "a_b" ["c"]) "c" ∧
    ((scriptedMonitor "a" ["b_c"]).Name, "b_c") ≠ ((scriptedMonitor "a_b" ["c"]).Name, "c") ∧
    (run legacyValidName (boot collidingPair [] true)
      ([none, none] ++ steps 0 5)).core.fieldMetrics.map
        (fun e => (e.1, e.2.opts.Subsystem, e.2.opts.Name)) = [("a_b_c", "a", "b_c")] ∧
    (run legacyValidName (boot collidingPair [] true)
      ([none, none] ++ steps 0 5 ++ steps 1 5)).core.fieldMetrics.map
        (fun e => (e.1, e.2.opts.Subsystem, e.2.opts.Name)) = [("a_b_c", "a_b", "c")] := by
  decide

/-- C10 (amended): two (monitor name, field name) pairs with the same key are
the same pair whenever the two monitor names have the same length (so in
particular for two fields of one monitor) or neither contains an underscore. -/
theorem C10_key_injective {σ V : Type} (m1 m2 : Monitor σ V) (f1 f2 : String)
    (hn : m1.Name.length = m2.Name.length ∨ ('_' ∉ m1.Name.data ∧ '_' ∉ m2.Name.data))
    (h : getFieldKey m1 f1 = getFieldKey m2 f2) : m1.Name = m2.Name ∧ f1 = f2 :=
  key_eq_cases m1.Name m2.Name f1 f2 hn h

/-- C10 (amended), at two fields of the monitor `disk`. -/
theorem C10_key_injective_witness :
    getFieldKey diskMonitor "free_pct" = getFieldKey diskMonitor "free_pct" ∧
    (diskMonitor.Name = diskMonitor.Name ∧ "free_pct" = "free_pct") :=
  ⟨rfl, C10_key_injective diskMonitor diskMonitor "free_pct" "free_pct"
    (Or.inr (by decide)) rfl⟩

/-! ## The polling loop -/

theorem pollLoop_count {σ V : Type} (mon : Monitor σ V) :
    ∀ (n : Nat) (st : σ) (k : Nat),
      (pollLoop mon n (st, k)).2 = k + (updateResults mon n st).count true := by
  intro n
  induction n with
  | zero => intro st k; simp [pollLoop, updateResults]
  | succ n ih =>
    intro st k
    simp only [pollLoop, pollCycle, updateResults]
    rw [ih]
    cases h : (mon.UpdateValues st).2
    · simp [List.count_cons]
    · simp [List.count_cons]; omega

theorem pollLoop_add {σ V : Type} (mon : Monitor σ V) :
    ∀ (n m : Nat) (s : σ × Nat), pollLoop mon (n + m) s = pollLoop mon m (pollLoop mon n s) := by
  intro n
  induction n with
  | zero => intro m s; simp [pollLoop]
  | succ n ih =>
    intro m s
    have e : n + 1 + m = (n + m) + 1 := by omega
    rw [e]
    simp only [pollLoop]
    exact ih m _

theorem pollLoop_le {σ V : Type} (mon : Monitor σ V) (m : Nat) (s : σ × Nat) :
    s.2 ≤ (pollLoop mon m s).2 := by
  obtain ⟨st, k⟩ := s
  rw [pollLoop_count]
  exact Nat.le_add_right _ _

/-! ## The evaluator -/

/-- C5: the accessor made by `getEvaluator` returns, whenever it is evaluated,
`GetValue` of the field on the monitor state of that moment: after a pass of
the polling loop it returns the value the pass left in the monitor, so `v` if
the pass set the field to `v`, and the previous value if the pass left the
value as it was. -/
theorem C5_evaluator {σ V : Type} (mon : Monitor σ V) (field : String) :
    (∀ st, getEvaluator mon field st = mon.GetValue st field) ∧
    (∀ s : σ × Nat,
      getEvaluator mon field (pollCycle mon s).1 = mon.GetValue (mon.UpdateValues s.1).1 field) ∧
    (∀ (s : σ × Nat) (v : V), mon.GetValue (mon.UpdateValues s.1).1 field = v →
      getEvaluator mon field (pollCycle mon s).1 = v) ∧
    (∀ s : σ × Nat, mon.GetValue (mon.UpdateValues s.1).1 field = mon.GetValue s.1 field →
      getEvaluator mon field (pollCycle mon s).1 = getEvaluator mon field s.1) :=
  ⟨fun _ => rfl, fun _ => rfl, fun _ _ h => h, fun _ h => h⟩

/-- C5, at the monitor `disk` and its field `free_pct`: after a pass that
measured 87.5 the accessor returns 87.5, and after a following pass whose
measurement failed it still returns 87.5 while the error counter is 1. -/
theorem C5_evaluator_witness :
    getEvaluator diskMonitor "free_pct"
      (pollCycle diskMonitor ({ script := [some 87.5, none], current := 0 }, 0)).1 = 87.5 ∧
    getEvaluator diskMonitor "free_pct"
      (pollLoop diskMonitor 2 ({ script := [some 87.5, none], current := 0 }, 0)).1 = 87.5 ∧
    (pollLoop diskMonitor 2 ({ script := [some 87.5, none], current := 0 }, 0)).2 = 1 :=
  ⟨(C5_evaluator diskMonitor "free_pct").2.2.1
      ({ script := [some 87.5, none], current := 0 }, 0) 87.5 rfl,
    rfl, rfl⟩

/-! ## Registration -/

theorem Register_some_iff (validName : String → Bool) (registry r : List String)
    (c : Collector) :
    Register validName registry c = some r ↔
      validName c.fqName = true ∧ c.fqName ∉ registry ∧ r = registry ++ [c.fqName] := by
  unfold Register
  cases hv : validName c.fqName
  · simp
  · by_cases hm : c.fqName ∈ registry
    · simp [hm]
    · simp [hm, eq_comm]

theorem Register_none_iff (validName : String → Bool) (registry : List String)
    (c : Collector) :
    Register validName registry c = none ↔
      validName c.fqName = false ∨ c.fqName ∈ registry := by
  unfold Register
  cases hv : validName c.fqName
  · simp
  · by_cases hm : c.fqName ∈ registry
    · simp [hm]
    · simp [hm]

/-! ## `startMonitors` -/

/-- The loop of `startMonitors` adds, for the pending monitors in order, one
goroutine each, with tickers numbered consecutively, and changes nothing
else. -/
theorem foldl_spawn {σ V : Type} :
    ∀ (ms : List (Monitor σ V × σ)) (p : Proc σ V),
      (ms.foldl spawn p).units = p.units ++
        (ms.enumFrom p.tickers).map
          (fun km => goStartMonitor km.2 (NewTicker km.1 (Millisecond * 500))) ∧
      (ms.foldl spawn p).tickers = p.tickers + ms.length ∧
      (ms.foldl spawn p).core = p.core ∧ (ms.foldl spawn p).pending = p.pending ∧
      (ms.foldl spawn p).serving = p.serving ∧ (ms.foldl spawn p).exited = p.exited ∧
      (ms.foldl spawn p).portFree = p.portFree ∧
      (ms.foldl spawn p).mainPc = p.mainPc := by
  intro ms
  induction ms with
  | nil => intro p; simp
  | cons m rest ih =>
    intro p
    obtain ⟨h1, h2, h3, h4, h5, h6, h7, h8⟩ := ih (spawn p m)
    simp only [List.foldl_cons, List.enumFrom_cons, List.map_cons, List.length_cons]
    refine ⟨?_, ?_, h3, h4, h5, h6, h7, h8⟩
    · rw [h1]; simp [spawn]
    · rw [h2]; simp only [spawn]; omega

theorem map_enumFrom_goStartMonitor {σ V : Type} :
    ∀ (ms : List (Monitor σ V × σ)) (n : Nat),
      ((ms.enumFrom n).map
        (fun km => goStartMonitor km.2 (NewTicker km.1 (Millisecond * 500)))).map
          (fun u => (u.mon, u.st)) = ms ∧
      ((ms.enumFrom n).map
        (fun km => goStartMonitor km.2 (NewTicker km.1 (Millisecond * 500)))).map
          (fun u => u.ticker.id) = List.range' n ms.length := by
  intro ms
  induction ms with
  | nil => intro n; simp
  | cons m rest ih =>
    intro n
    obtain ⟨h1, h2⟩ := ih (n + 1)
    simp only [List.enumFrom_cons, List.map_cons, List.length_cons, List.range'_succ]
    exact ⟨by rw [h1]; rfl, by rw [h2]; rfl⟩

/-- C9: `startMonitors` starts one goroutine per element of `MONITORS`, in
order, none skipped or repeated: as many goroutines as monitors, the `k`-th
one running the `k`-th monitor from its initial state at the start of
`startMonitor`; their tickers are pairwise different, newly made (numbered
`0, 1, ...`), and each has a period of 500 ms; nothing else changes.  The same
state is reached by the main goroutine taking one step per monitor. -/
theorem C9_startMonitors {σ V : Type} (validName : String → Bool)
    (MONITORS : List (Monitor σ V × σ)) (registry : List String) (portFree : Bool) :
    (startMonitors (boot MONITORS registry portFree)).units.length = MONITORS.length ∧
    (startMonitors (boot MONITORS registry portFree)).units.map (fun u => (u.mon, u.st))
      = MONITORS ∧
    (startMonitors (boot MONITORS registry portFree)).units.map (fun u => u.ticker.id)
      = List.range MONITORS.length ∧
    ((startMonitors (boot MONITORS registry portFree)).units.map (fun u => u.ticker.id)).Nodup ∧
    (∀ u ∈ (startMonitors (boot MONITORS registry portFree)).units,
      u.ticker.period = 500 * 1000000 ∧ u.pc = Pc.init ∧ u.errors = 0) ∧
    (startMonitors (boot MONITORS registry portFree)).tickers = MONITORS.length ∧
    (startMonitors (boot MONITORS registry portFree)).pending = [] ∧
    (startMonitors (boot MONITORS registry portFree)).core
      = { registry := registry, fieldMetrics := [], mapWriting := false } ∧
    run validName (boot MONITORS registry portFree) (List.replicate MONITORS.length none)
      = startMonitors (boot MONITORS registry portFree) := by
  have e : startMonitors (boot MONITORS registry portFree) =
      MONITORS.foldl spawn
        { mainPc := MainPc.startMonitors, pending := [], units := [],
          core := { registry := registry, fieldMetrics := [], mapWriting := false },
          tickers := 0, serving := false, portFree := portFree, exited := none } := rfl
  obtain ⟨h1, h2, h3, h4, _, _, _, _⟩ :=
    foldl_spawn MONITORS
      ({ mainPc := MainPc.startMonitors, pending := [], units := [],
         core := { registry := registry, fieldMetrics := [], mapWriting := false },
         tickers := 0, serving := false, portFree := portFree, exited := none } : Proc σ V)
  simp only [List.nil_append, Nat.zero_add] at h1 h2 h3 h4
  rw [← e] at h1 h2 h3 h4
  obtain ⟨m1, m2⟩ := map_enumFrom_goStartMonitor MONITORS 0
  have hids : (startMonitors (boot MONITORS registry portFree)).units.map
      (fun u => u.ticker.id) = List.range MONITORS.length := by
    rw [h1, m2, List.range_eq_range']
  refine ⟨?_, ?_, hids, ?_, ?_, h2, h4, h3, ?_⟩
  · rw [h1]; simp
  · rw [h1]; exact m1
  · rw [hids]; exact List.nodup_range _
  · intro u hmem
    rw [h1] at hmem
    obtain ⟨km, _, rfl⟩ := List.mem_map.mp hmem
    exact ⟨by simp [goStartMonitor, NewTicker, Millisecond], rfl, rfl⟩
  · have key : ∀ (ms : List (Monitor σ V × σ)) (p : Proc σ V), p.exited = none →
        p.mainPc = MainPc.startMonitors → p.pending = ms →
        run validName p (List.replicate ms.length none) = startMonitors p := by
      intro ms
      induction ms with
      | nil =>
        intro p _ _ hp
        cases p
        simp only at hp
        subst hp
        rfl
      | cons m rest ih =>
        intro p he hmp hp
        have hs : step validName p none = spawn { p with pending := rest } m := by
          simp [step, he, mainStep, hp, hmp]
        simp only [List.length_cons, List.replicate_succ, run, List.foldl_cons]
        rw [hs]
        have := ih (spawn { p with pending := rest } m) (by simp [spawn, he])
          (by simp [spawn, hmp]) (by simp [spawn])
        simp only [run] at this
        rw [this]
        simp [startMonitors, hp, spawn]
    exact key MONITORS _ rfl rfl rfl

/-! ## A pass of the polling loop inside the process -/

/-- A step of a running goroutine that is in its polling loop, spelled out. -/
theorem step_polling {σ V : Type} (validName : String → Bool) (p : Proc σ V) (i : Nat)
    (u : PollUnit σ V) (hex : p.exited = none) (hu : p.units[i]? = some u)
    (hpc : u.pc = Pc.polling) :
    step validName p (some i) = { p with units := p.units.set i (pollOnce u) } := by
  cases p
  simp only at hex hu
  subst hex
  simp only [step, hu, unitStep, hpc]

/-- C6: a pass of the polling loop of the `i`-th goroutine leaves the registry
and `MONITOR_FIELD_METRICS` as they are, leaves the process running, leaves
every other goroutine (its error counter included) as it is, and leaves this
goroutine in its polling loop with the same monitor and the same ticker; the
goroutine's error counter grows by exactly one if `UpdateValues` returned an
error and is unchanged otherwise. -/
theorem C6_poll_frame {σ V : Type} (validName : String → Bool) (p : Proc σ V) (i : Nat)
    (u : PollUnit σ V) (hex : p.exited = none) (hu : p.units[i]? = some u)
    (hpc : u.pc = Pc.polling) :
    (step validName p (some i)).core = p.core ∧
    (step validName p (some i)).exited = none ∧
    (step validName p (some i)).serving = p.serving ∧
    (step validName p (some i)).pending = p.pending ∧
    (step validName p (some i)).tickers = p.tickers ∧
    (step validName p (some i)).units.length = p.units.length ∧
    (∀ j, j ≠ i → (step validName p (some i)).units[j]? = p.units[j]?) ∧
    (∃ w, (step validName p (some i)).units[i]? = some w ∧
      w.pc = Pc.polling ∧ w.ticker = u.ticker ∧ w.mon = u.mon ∧
      w.registered = u.registered ∧
      w.st = (u.mon.UpdateValues u.st).1 ∧
      ((u.mon.UpdateValues u.st).2 = true → w.errors = u.errors + 1) ∧
      ((u.mon.UpdateValues u.st).2 = false → w.errors = u.errors)) := by
  rw [step_polling validName p i u hex hu hpc]
  have hlt : i < p.units.length := by
    rcases Nat.lt_or_ge i p.units.length with h | h
    · exact h
    · rw [List.getElem?_eq_none h] at hu; cases hu
  refine ⟨rfl, hex, rfl, rfl, rfl, by simp, ?_, ?_⟩
  · intro j hj
    exact List.getElem?_set_ne (Ne.symm hj)
  · refine ⟨_, List.getElem?_set_self hlt, hpc, rfl, rfl, rfl, rfl, ?_, ?_⟩
    · intro h; simp [pollOnce, pollCycle, h]
    · intro h; simp [pollOnce, pollCycle, h]

/-- C6, at two goroutines for `disk` and `net` that are both in their polling
loops with error counters 0, when the next measurement of `disk` cannot be
completed: after the pass of `disk` its counter is 1, the counter of `net` is
still 0, and the registry is the same. -/
theorem C6_poll_frame_witness :
    ((step legacyValidName
        (run legacyValidName
          (boot [(diskMonitor, { script := [none], current := 0 }),
                 (scriptedMonitor "net" ["rx"], { script := [], current := 0 })] [] true)
          [none, none, some 0, some 0, some 0, some 0, some 0, some 0, some 0, some 0,
            some 1, some 1, some 1, some 1, some 1, some 1, some 1, some 1])
        (some 0)).units.map (fun w => (w.errors, w.pc, w.ticker.id))
      = [(1, Pc.polling, 0), (0, Pc.polling, 1)]) ∧
    (step legacyValidName
        (run legacyValidName
          (boot [(diskMonitor, { script := [none], current := 0 }),
                 (scriptedMonitor "net" ["rx"], { script := [], current := 0 })] [] true)
          [none, none, some 0, some 0, some 0, some 0, some 0, some 0, some 0, some 0,
            some 1, some 1, some 1, some 1, some 1, some 1, some 1, some 1])
        (some 0)).core.registry
      = ["disk_errors", "disk_uptime", "disk_free_pct", "net_errors", "net_uptime", "net_rx"] :=
  have h := C6_poll_frame legacyValidName
    (run legacyValidName
      (boot [(diskMonitor, { script := [none], current := 0 }),
             (scriptedMonitor "net" ["rx"], { script := [], current := 0 })] [] true)
      [none, none, some 0, some 0, some 0, some 0, some 0, some 0, some 0, some 0,
            some 1, some 1, some 1, some 1, some 1, some 1, some 1, some 1])
    0 _ rfl rfl rfl
  ⟨by decide, (congrArg Core.registry h.1).trans (by decide)⟩


/-! ## Invariants of executions -/

theorem unitStep_spec {σ V : Type} (validName : String → Bool) (c : Core)
    (u : PollUnit σ V) (h : unitInv u) :
    (unitStep validName c u).2.1.mon = u.mon ∧
    (unitStep validName c u).2.1.st0 = u.st0 ∧
    (unitStep validName c u).2.1.ticker = u.ticker ∧
    unitInv (unitStep validName c u).2.1 ∧
    ((unitStep validName c u).2.1.pc = Pc.dead → u.pc ≠ Pc.dead →
      (unitStep validName c u).2.2 ≠ none) ∧
    ((unitStep validName c u).2.1.pc = Pc.dead → u.pc ≠ Pc.dead →
      u.mon.Init u.st0 = none → (unitStep validName c u).2.2 = some Fatal.initAborted) ∧
    (((unitStep validName c u).2.1.registered = u.registered ∧
        (unitStep validName c u).1.registry = c.registry) ∨
      ∃ x, x ∉ c.registry ∧
        (unitStep validName c u).2.1.registered = u.registered ++ [x] ∧
        (unitStep validName c u).1.registry = c.registry ++ [x]) := by
  cases hpc : u.pc with
  | init =>
    simp only [unitInv, hpc] at h
    cases hI : u.mon.Init u.st with
    | none =>
      have e : unitStep validName c u = (c, { u with pc := Pc.dead }, some Fatal.initAborted) := by
        simp only [unitStep, hpc, hI]
      rw [e]
      refine ⟨rfl, rfl, rfl, ?_, fun _ _ => by simp, fun _ _ _ => rfl, Or.inl ⟨rfl, rfl⟩⟩
      simp only [unitInv]
      exact ⟨h.2.2, fun _ => h.2.1⟩
    | some st1 =>
      have e : unitStep validName c u = (c, { u with st := st1, pc := Pc.regErrors }, none) := by
        simp only [unitStep, hpc, hI]
      rw [e]
      refine ⟨rfl, rfl, rfl, ?_, fun hd => (by cases hd), fun hd => (by cases hd),
        Or.inl ⟨rfl, rfl⟩⟩
      simp only [unitInv]
      refine ⟨?_, h.2.1, h.2.2⟩
      rw [← h.1]; exact hI
  | regErrors =>
    simp only [unitInv, hpc] at h
    cases hR : Register validName c.registry (errMetricOf u.mon) with
    | none =>
      have e : unitStep validName c u =
          (c, { u with pc := Pc.dead },
            some (Fatal.mustRegisterPanic (errMetricOf u.mon).fqName)) := by
        simp only [unitStep, hpc, MustRegister, hR]
      rw [e]
      refine ⟨rfl, rfl, rfl, ?_, fun _ _ => by simp, fun _ _ hno => ?_, Or.inl ⟨rfl, rfl⟩⟩
      · simp only [unitInv]
        exact ⟨h.2.2, fun _ => h.2.1⟩
      · rw [h.1] at hno; cases hno
    | some r =>
      obtain ⟨_, hn, hr⟩ := (Register_some_iff _ _ _ _).mp hR
      have e : unitStep validName c u =
          ({ c with registry := r },
            { u with pc := Pc.regUptime, errors := 0,
                     registered := u.registered ++ [(errMetricOf u.mon).fqName] }, none) := by
        simp only [unitStep, hpc, MustRegister, hR]
      rw [e]
      refine ⟨rfl, rfl, rfl, ?_, fun hd => (by cases hd), fun hd => (by cases hd),
        Or.inr ⟨(errMetricOf u.mon).fqName, hn, rfl, hr⟩⟩
      simp only [unitInv]
      exact ⟨h.1, h.2.2⟩
  | regUptime =>
    simp only [unitInv, hpc] at h
    cases hR : Register validName c.registry (uptimeMetricOf u.mon) with
    | none =>
      have e : unitStep validName c u =
          (c, { u with pc := Pc.dead },
            some (Fatal.mustRegisterPanic (uptimeMetricOf u.mon).fqName)) := by
        simp only [unitStep, hpc, MustRegister, hR]
      rw [e]
      refine ⟨rfl, rfl, rfl, ?_, fun _ _ => by simp, fun _ _ hno => ?_, Or.inl ⟨rfl, rfl⟩⟩
      · simp only [unitInv]
        exact ⟨h.2, fun hno => by rw [h.1] at hno; cases hno⟩
      · rw [h.1] at hno; cases hno
    | some r =>
      obtain ⟨_, hn, hr⟩ := (Register_some_iff _ _ _ _).mp hR
      have e : unitStep validName c u =
          ({ c with registry := r },
            { u with pc := Pc.fieldLoop (u.mon.GetFields u.st),
                     registered := u.registered ++ [(uptimeMetricOf u.mon).fqName] }, none) := by
        simp only [unitStep, hpc, MustRegister, hR]
      rw [e]
      refine ⟨rfl, rfl, rfl, ?_, fun hd => (by cases hd), fun hd => (by cases hd), Or.inr ⟨(uptimeMetricOf u.mon).fqName, hn, rfl, hr⟩⟩
      simp only [unitInv]
      exact ⟨h.1, h.2⟩
  | fieldLoop rest =>
    simp only [unitInv, hpc] at h
    cases rest with
    | nil =>
      have e : unitStep validName c u = (c, { u with pc := Pc.polling }, none) := by
        simp only [unitStep, hpc]
      rw [e]
      refine ⟨rfl, rfl, rfl, ?_, fun hd => (by cases hd), fun hd => (by cases hd),
        Or.inl ⟨rfl, rfl⟩⟩
      simp only [unitInv]
      exact ⟨u.st, h.1⟩
    | cons field rest =>
      cases hw : c.mapWriting with
      | true =>
        have e : unitStep validName c u =
            (c, { u with pc := Pc.dead }, some Fatal.concurrentMapWrites) := by
          simp [unitStep, hpc, hw]
        rw [e]
        refine ⟨rfl, rfl, rfl, ?_, fun _ _ => by simp, fun _ _ hno => ?_, Or.inl ⟨rfl, rfl⟩⟩
        · simp only [unitInv]
          exact ⟨h.2, fun hno => by rw [h.1] at hno; cases hno⟩
        · rw [h.1] at hno; cases hno
      | false =>
        have e : unitStep validName c u =
            ({ c with mapWriting := true }, { u with pc := Pc.fieldStore field rest }, none) := by
          simp [unitStep, hpc, hw]
        rw [e]
        refine ⟨rfl, rfl, rfl, ?_, fun hd => (by cases hd), fun hd => (by cases hd), Or.inl ⟨rfl, rfl⟩⟩
        simp only [unitInv]
        exact ⟨h.1, h.2⟩
  | fieldStore field rest =>
    simp only [unitInv, hpc] at h
    cases hw : c.mapWriting with
    | false =>
      have e : unitStep validName c u =
          (c, { u with pc := Pc.dead }, some Fatal.concurrentMapWrites) := by
        simp [unitStep, hpc, hw]
      rw [e]
      refine ⟨rfl, rfl, rfl, ?_, fun _ _ => by simp, fun _ _ hno => ?_, Or.inl ⟨rfl, rfl⟩⟩
      · simp only [unitInv]
        exact ⟨h.2, fun hno => by rw [h.1] at hno; cases hno⟩
      · rw [h.1] at hno; cases hno
    | true =>
      have e : unitStep validName c u =
          ({ c with fieldMetrics :=
                mapSet c.fieldMetrics (getFieldKey u.mon field) (fieldMetricOf u.mon field),
                    mapWriting := false },
            { u with pc := Pc.fieldLoad field rest }, none) := by
        simp [unitStep, hpc, hw]
      rw [e]
      refine ⟨rfl, rfl, rfl, ?_, fun hd => (by cases hd), fun hd => (by cases hd), Or.inl ⟨rfl, rfl⟩⟩
      simp only [unitInv]
      exact ⟨h.1, h.2⟩
  | fieldLoad field rest =>
    simp only [unitInv, hpc] at h
    cases hw : c.mapWriting with
    | true =>
      have e : unitStep validName c u =
          (c, { u with pc := Pc.dead }, some Fatal.concurrentMapReadWrite) := by
        simp [unitStep, hpc, hw]
      rw [e]
      refine ⟨rfl, rfl, rfl, ?_, fun _ _ => by simp, fun _ _ hno => ?_, Or.inl ⟨rfl, rfl⟩⟩
      · simp only [unitInv]
        exact ⟨h.2, fun hno => by rw [h.1] at hno; cases hno⟩
      · rw [h.1] at hno; cases hno
    | false =>
      have e : unitStep validName c u =
          (c, { u with pc := Pc.fieldRegister field
                            (mapGet c.fieldMetrics (getFieldKey u.mon field)) rest }, none) := by
        simp [unitStep, hpc, hw]
      rw [e]
      refine ⟨rfl, rfl, rfl, ?_, fun hd => (by cases hd), fun hd => (by cases hd), Or.inl ⟨rfl, rfl⟩⟩
      simp only [unitInv]
      exact ⟨h.1, h.2⟩
  | fieldRegister field read rest =>
    simp only [unitInv, hpc] at h
    cases read with
    | none =>
      have e : unitStep validName c u =
          (c, { u with pc := Pc.dead }, some Fatal.nilCollector) := by
        simp only [unitStep, hpc]
      rw [e]
      refine ⟨rfl, rfl, rfl, ?_, fun _ _ => by simp, fun _ _ hno => ?_, Or.inl ⟨rfl, rfl⟩⟩
      · simp only [unitInv]
        exact ⟨h.2, fun hno => by rw [h.1] at hno; cases hno⟩
      · rw [h.1] at hno; cases hno
    | some col =>
      cases hR : Register validName c.registry col with
      | none =>
        have e : unitStep validName c u =
            (c, { u with pc := Pc.dead },
              some (Fatal.registerFailed (getFieldKey u.mon field))) := by
          simp only [unitStep, hpc, hR]
        rw [e]
        refine ⟨rfl, rfl, rfl, ?_, fun _ _ => by simp, fun _ _ hno => ?_, Or.inl ⟨rfl, rfl⟩⟩
        · simp only [unitInv]
          exact ⟨h.2, fun hno => by rw [h.1] at hno; cases hno⟩
        · rw [h.1] at hno; cases hno
      | some r =>
        obtain ⟨_, hn, hr⟩ := (Register_some_iff _ _ _ _).mp hR
        have e : unitStep validName c u =
            ({ c with registry := r },
              { u with pc := Pc.fieldLoop rest,
                       registered := u.registered ++ [col.fqName] }, none) := by
          simp only [unitStep, hpc, hR]
        rw [e]
        refine ⟨rfl, rfl, rfl, ?_, fun hd => (by cases hd), fun hd => (by cases hd), Or.inr ⟨col.fqName, hn, rfl, hr⟩⟩
        simp only [unitInv]
        exact ⟨h.1, h.2⟩
  | polling =>
    simp only [unitInv, hpc] at h
    have e : unitStep validName c u = (c, pollOnce u, none) := by
      simp only [unitStep, hpc]
    rw [e]
    refine ⟨rfl, rfl, rfl, ?_, fun hd => ?_, fun hd => ?_, Or.inl ⟨rfl, rfl⟩⟩
    · simp only [unitInv, pollOnce, hpc]
      exact h
    · simp only [pollOnce, hpc] at hd
      cases hd
    · simp only [pollOnce, hpc] at hd
      cases hd
  | dead =>
    have e : unitStep validName c u = (c, u, none) := by
      simp only [unitStep, hpc]
    rw [e]
    exact ⟨rfl, rfl, rfl, h, fun _ hne => absurd rfl hne, fun _ hne => absurd rfl hne,
      Or.inl ⟨rfl, rfl⟩⟩
theorem map_set_same {α β : Type} (f : α → β) :
    ∀ (l : List α) (i : Nat) (a b : α), l[i]? = some a → f b = f a →
      (l.set i b).map f = l.map f := by
  intro l
  induction l with
  | nil => intro i a b h; simp at h
  | cons x t ih =>
    intro i a b h hf
    cases i with
    | zero =>
      simp only [List.getElem?_cons_zero, Option.some.injEq] at h
      subst h
      simp [hf]
    | succ i =>
      simp only [List.getElem?_cons_succ] at h
      simp only [List.set_cons_succ, List.map_cons]
      rw [ih i a b h hf]

theorem flatMap_set_same {α β : Type} (f : α → List β) :
    ∀ (l : List α) (i : Nat) (a b : α), l[i]? = some a → f b = f a →
      (l.set i b).flatMap f = l.flatMap f := by
  intro l
  induction l with
  | nil => intro i a b h; simp at h
  | cons x t ih =>
    intro i a b h hf
    cases i with
    | zero =>
      simp only [List.getElem?_cons_zero, Option.some.injEq] at h
      subst h
      simp [List.flatMap_cons, hf]
    | succ i =>
      simp only [List.getElem?_cons_succ] at h
      simp only [List.set_cons_succ, List.flatMap_cons]
      rw [ih i a b h hf]

theorem flatMap_set_perm {α β : Type} (f : α → List β) (y : β) :
    ∀ (l : List α) (i : Nat) (a b : α), l[i]? = some a → f b = f a ++ [y] →
      List.Perm ((l.set i b).flatMap f) (y :: l.flatMap f) := by
  intro l
  induction l with
  | nil => intro i a b h; simp at h
  | cons x t ih =>
    intro i a b h hf
    cases i with
    | zero =>
      simp only [List.getElem?_cons_zero, Option.some.injEq] at h
      subst h
      simp only [List.set_cons_zero, List.flatMap_cons, hf, List.append_assoc,
        List.singleton_append]
      exact List.perm_middle
    | succ i =>
      simp only [List.getElem?_cons_succ] at h
      simp only [List.set_cons_succ, List.flatMap_cons]
      exact ((ih i a b h hf).append_left (f x)).trans List.perm_middle

theorem nodup_flatMap_disjoint_lt {α β : Type} (f : α → List β) :
    ∀ (l : List α) (i j : Nat) (a b : α), (l.flatMap f).Nodup → i < j →
      l[i]? = some a → l[j]? = some b → ∀ x, x ∈ f a → x ∈ f b → False := by
  intro l
  induction l with
  | nil => intro i j a b _ _ h; simp at h
  | cons h t ih =>
    intro i j a b hnd hlt hi hj x hxa hxb
    rw [List.flatMap_cons, List.nodup_append] at hnd
    cases j with
    | zero => omega
    | succ j =>
      simp only [List.getElem?_cons_succ] at hj
      cases i with
      | zero =>
        simp only [List.getElem?_cons_zero, Option.some.injEq] at hi
        subst hi
        exact hnd.2.2 hxa (List.mem_flatMap.mpr ⟨b, List.getElem?_mem hj, hxb⟩)
      | succ i =>
        simp only [List.getElem?_cons_succ] at hi
        exact ih i j a b hnd.2.1 (by omega) hi hj x hxa hxb

theorem nodup_flatMap_disjoint {α β : Type} (f : α → List β) (l : List α) (i j : Nat)
    (a b : α) (hnd : (l.flatMap f).Nodup) (hij : i ≠ j) (hi : l[i]? = some a)
    (hj : l[j]? = some b) (x : β) (hxa : x ∈ f a) (hxb : x ∈ f b) : False := by
  rcases Nat.lt_or_gt_of_ne hij with h | h
  · exact nodup_flatMap_disjoint_lt f l i j a b hnd h hi hj x hxa hxb
  · exact nodup_flatMap_disjoint_lt f l j i b a hnd h hj hi x hxb hxa

theorem count_append_fresh (registry : List String) (x y : String)
    (hy : registry.count y = 1) (hx : x ∉ registry) : (registry ++ [x]).count y = 1 := by
  have hmem : y ∈ registry := by
    by_contra hn
    rw [List.count_eq_zero_of_not_mem hn] at hy
    cases hy
  have hne : x ≠ y := fun e => hx (e ▸ hmem)
  rw [List.count_append, hy]
  simp [List.count_cons, hne]

theorem count_append_new (registry : List String) (x : String) (hx : x ∉ registry) :
    (registry ++ [x]).count x = 1 := by
  rw [List.count_append, List.count_eq_zero_of_not_mem hx]
  simp

/-- A step that leaves the goroutines and the pending monitors as they are
and adds at most one new name to the registry keeps `procInv`. -/
theorem procInv_same_units {σ V : Type} (MONITORS : List (Monitor σ V × σ))
    (p q : Proc σ V) (h : procInv MONITORS p) (hex : p.exited = none)
    (hu : q.units = p.units) (hp : q.pending = p.pending)
    (hr : q.core.registry = p.core.registry ∨
      ∃ x, x ∉ p.core.registry ∧ q.core.registry = p.core.registry ++ [x]) :
    procInv MONITORS q := by
  obtain ⟨h1, h2, h3, h4⟩ := h
  refine ⟨by rw [hu, hp]; exact h1, ?_, by rw [hu]; exact h3, ?_⟩
  · intro u hmem
    rw [hu] at hmem
    exact ⟨(h2 u hmem).1, fun hd => absurd hex ((h2 u hmem).2.1 hd),
      fun hd => absurd hex ((h2 u hmem).2.1 hd)⟩
  · intro x hx
    rw [hu] at hx
    rcases hr with hr | ⟨y, hy, hr⟩
    · rw [hr]; exact h4 x hx
    · rw [hr]; exact count_append_fresh _ _ _ (h4 x hx) hy

/-- A step of the main goroutine, spelled out. -/
theorem mainStep_cases {σ V : Type} (validName : String → Bool) (p : Proc σ V) :
    (∃ m rest, p.pending = m :: rest ∧ p.mainPc = MainPc.startMonitors ∧
      mainStep validName p = spawn { p with pending := rest } m) ∨
    ((mainStep validName p).units = p.units ∧ (mainStep validName p).pending = p.pending ∧
      (mainStep validName p).core.fieldMetrics = p.core.fieldMetrics ∧
      (mainStep validName p).core.mapWriting = p.core.mapWriting ∧
      ((mainStep validName p).core.registry = p.core.registry ∨
        ∃ x, x ∉ p.core.registry ∧
          (mainStep validName p).core.registry = p.core.registry ++ [x])) := by
  cases hm : p.mainPc with
  | startMonitors =>
    cases hp : p.pending with
    | nil =>
      right
      refine ⟨?_, ?_, ?_, ?_, Or.inl ?_⟩ <;> simp only [mainStep, hm, hp]
    | cons m rest =>
      left
      exact ⟨m, rest, rfl, rfl, by simp only [mainStep, hm, hp]⟩
  | handlerCounter =>
    right
    cases hR : Register validName p.core.registry handlerCounterMetric with
    | none =>
      refine ⟨?_, ?_, ?_, ?_, Or.inl ?_⟩ <;> simp only [mainStep, hm, hR]
    | some r =>
      obtain ⟨_, hn, hr⟩ := (Register_some_iff _ _ _ _).mp hR
      have e : mainStep validName p =
          { p with mainPc := MainPc.handlerGauge, core := { p.core with registry := r } } := by
        simp only [mainStep, hm, hR]
      rw [e]
      exact ⟨rfl, rfl, rfl, rfl, Or.inr ⟨_, hn, hr⟩⟩
  | handlerGauge =>
    right
    cases hR : Register validName p.core.registry handlerGaugeMetric with
    | none =>
      refine ⟨?_, ?_, ?_, ?_, Or.inl ?_⟩ <;> simp only [mainStep, hm, hR]
    | some r =>
      obtain ⟨_, hn, hr⟩ := (Register_some_iff _ _ _ _).mp hR
      have e : mainStep validName p =
          { p with mainPc := MainPc.listen, core := { p.core with registry := r } } := by
        simp only [mainStep, hm, hR]
      rw [e]
      exact ⟨rfl, rfl, rfl, rfl, Or.inr ⟨_, hn, hr⟩⟩
  | listen =>
    right
    cases hpf : p.portFree with
    | true =>
      simp [mainStep, hm, hpf]
    | false =>
      simp [mainStep, hm, hpf]
  | serving =>
    right
    refine ⟨?_, ?_, ?_, ?_, Or.inl ?_⟩ <;> simp only [mainStep, hm]

/-- Every step of the process keeps `procInv`. -/
theorem step_procInv {σ V : Type} (validName : String → Bool)
    (MONITORS : List (Monitor σ V × σ)) (p : Proc σ V) (who : Option Nat)
    (h : procInv MONITORS p) : procInv MONITORS (step validName p who) := by
  cases hex : p.exited with
  | some e =>
    have e1 : step validName p who = p := by simp only [step, hex]
    rw [e1]; exact h
  | none =>
    cases who with
    | none =>
      have e1 : step validName p none = mainStep validName p := by simp only [step, hex]
      rw [e1]
      rcases mainStep_cases validName p with ⟨m, rest, hp, _, e2⟩ | ⟨a1, a2, _, _, a5⟩
      · rw [e2]
        obtain ⟨hm, hu, hnd, hreg⟩ := h
        refine ⟨?_, ?_, ?_, ?_⟩
        · rw [← hm, hp]; simp [spawn, goStartMonitor]
        · intro u hmem
          simp only [spawn, List.mem_append, List.mem_singleton] at hmem
          rcases hmem with hmem | hmem
          · exact hu u hmem
          · subst hmem
            exact ⟨by simp [unitInv, goStartMonitor],
              fun hd => by simp [goStartMonitor] at hd,
              fun hd => by simp [goStartMonitor] at hd⟩
        · simpa [spawn, goStartMonitor] using hnd
        · simpa [spawn, goStartMonitor] using hreg
      · exact procInv_same_units MONITORS p _ h hex a1 a2 a5
    | some i =>
      obtain ⟨hm, hu, hnd, hreg⟩ := h
      cases hget : p.units[i]? with
      | none =>
        have e1 : step validName p (some i) = p := by simp only [step, hex, hget]
        rw [e1]; exact ⟨hm, hu, hnd, hreg⟩
      | some u =>
        have e1 : step validName p (some i) =
            { p with core := (unitStep validName p.core u).1,
                     units := p.units.set i (unitStep validName p.core u).2.1,
                     exited := (unitStep validName p.core u).2.2 } := by
          simp only [step, hex, hget]
        rw [e1]
        have humem := List.getElem?_mem hget
        obtain ⟨s1, s2, _, s4, s5, s5b, s6⟩ :=
          unitStep_spec validName p.core u (hu u humem).1
        refine ⟨?_, ?_, ?_, ?_⟩
        · show List.map (fun (w : PollUnit σ V) => (w.mon, w.st0))
            (p.units.set i (unitStep validName p.core u).2.1) ++ p.pending = MONITORS
          rw [map_set_same _ _ _ u _ hget (by simp only [s1, s2])]
          exact hm
        · intro w hmem
          rcases List.mem_or_eq_of_mem_set hmem with hw | hw
          · exact ⟨(hu w hw).1, fun hd => absurd hex ((hu w hw).2.1 hd),
              fun hd => absurd hex ((hu w hw).2.1 hd)⟩
          · subst hw
            refine ⟨s4, fun hd => ?_, fun hd hno => ?_⟩
            · exact s5 hd (fun hud => absurd hex ((hu u humem).2.1 hud))
            · rw [s1, s2] at hno
              exact s5b hd (fun hud => absurd hex ((hu u humem).2.1 hud)) hno
        · show ((p.units.set i (unitStep validName p.core u).2.1).flatMap
            (fun (w : PollUnit σ V) => w.registered)).Nodup
          rcases s6 with ⟨r1, _⟩ | ⟨x, hx, r1, _⟩
          · rw [flatMap_set_same _ _ _ u _ hget r1]; exact hnd
          · rw [(flatMap_set_perm _ x _ _ u _ hget r1).nodup_iff, List.nodup_cons]
            refine ⟨fun hmem => hx ?_, hnd⟩
            have hc := hreg x hmem
            by_contra hn
            rw [List.count_eq_zero_of_not_mem hn] at hc
            cases hc
        · show ∀ x ∈ (p.units.set i (unitStep validName p.core u).2.1).flatMap
              (fun (w : PollUnit σ V) => w.registered),
            (unitStep validName p.core u).1.registry.count x = 1
          rcases s6 with ⟨r1, r2⟩ | ⟨x, hx, r1, r2⟩
          · rw [flatMap_set_same _ _ _ u _ hget r1, r2]; exact hreg
          · intro y hy
            rw [(flatMap_set_perm _ x _ _ u _ hget r1).mem_iff] at hy
            rw [r2]
            rcases List.mem_cons.mp hy with hy | hy
            · rw [hy]; exact count_append_new _ _ hx
            · exact count_append_fresh _ _ _ (hreg y hy) hx

theorem boot_procInv {σ V : Type} (MONITORS : List (Monitor σ V × σ))
    (registry : List String) (portFree : Bool) :
    procInv MONITORS (boot MONITORS registry portFree) := by
  simp [procInv, boot]

/-- Every execution from `boot` keeps `procInv`. -/
theorem run_procInv {σ V : Type} (validName : String → Bool)
    (MONITORS : List (Monitor σ V × σ)) (sched : List (Option Nat)) :
    ∀ p : Proc σ V, procInv MONITORS p → procInv MONITORS (run validName p sched) := by
  induction sched with
  | nil => intro p h; exact h
  | cons w rest ih =>
    intro p h
    exact ih _ (step_procInv validName MONITORS p w h)

/-- The `i`-th goroutine runs the `i`-th monitor of `MONITORS`. -/
theorem unit_of_procInv {σ V : Type} (MONITORS : List (Monitor σ V × σ)) (p : Proc σ V)
    (h : procInv MONITORS p) (i : Nat) (u : PollUnit σ V) (m : Monitor σ V × σ)
    (hu : p.units[i]? = some u) (hm : MONITORS[i]? = some m) : m = (u.mon, u.st0) := by
  have hlt : i < (p.units.map (fun w => (w.mon, w.st0))).length := by
    rw [List.length_map]
    exact (List.getElem?_eq_some.mp hu).1
  have e : MONITORS[i]? = some (u.mon, u.st0) := by
    rw [← h.1, List.getElem?_append_left hlt, List.getElem?_map, hu]
    rfl
  rw [hm] at e
  exact Option.some.inj e

theorem run_exited {σ V : Type} (validName : String → Bool) (more : List (Option Nat)) :
    ∀ p : Proc σ V, p.exited ≠ none → run validName p more = p := by
  induction more with
  | nil => intro p _; rfl
  | cons w rest ih =>
    intro p h
    have e1 : step validName p w = p := by
      cases hex : p.exited with
      | none => exact absurd hex h
      | some e => simp only [step, hex]
    simp only [run, List.foldl_cons, e1]
    exact ih p h

theorem step_units {σ V : Type} (validName : String → Bool) (p : Proc σ V)
    (who : Option Nat) (w : PollUnit σ V) (hw : w ∈ (step validName p who).units) :
    w ∈ p.units ∨ (∃ m t, w = goStartMonitor m t) ∨
      ∃ u ∈ p.units, w = (unitStep validName p.core u).2.1 := by
  cases hex : p.exited with
  | some e =>
    rw [show step validName p who = p by simp only [step, hex]] at hw
    exact Or.inl hw
  | none =>
    cases who with
    | none =>
      rw [show step validName p none = mainStep validName p by simp only [step, hex]] at hw
      rcases mainStep_cases validName p with ⟨m, rest, _, _, e2⟩ | ⟨a1, _⟩
      · rw [e2] at hw
        simp only [spawn, List.mem_append, List.mem_singleton] at hw
        rcases hw with hw | hw
        · exact Or.inl hw
        · exact Or.inr (Or.inl ⟨_, _, hw⟩)
      · rw [a1] at hw
        exact Or.inl hw
    | some i =>
      cases hget : p.units[i]? with
      | none =>
        rw [show step validName p (some i) = p by simp only [step, hex, hget]] at hw
        exact Or.inl hw
      | some u =>
        rw [show step validName p (some i) =
            { p with core := (unitStep validName p.core u).1,
                     units := p.units.set i (unitStep validName p.core u).2.1,
                     exited := (unitStep validName p.core u).2.2 } by
          simp only [step, hex, hget]] at hw
        rcases List.mem_or_eq_of_mem_set hw with hw | hw
        · exact Or.inl hw
        · exact Or.inr (Or.inr ⟨u, List.getElem?_mem hget, hw⟩)

theorem pollLoop_succ_right {σ V : Type} (mon : Monitor σ V) (n : Nat) (s : σ × Nat) :
    pollLoop mon (n + 1) s = pollCycle mon (pollLoop mon n s) := by
  rw [pollLoop_add]
  rfl

theorem unitStep_errInv {σ V : Type} (validName : String → Bool) (c : Core)
    (u : PollUnit σ V) (h : unitInv u) (he : errInv u) :
    errInv (unitStep validName c u).2.1 := by
  cases hpc : u.pc with
  | init =>
    simp only [errInv, hpc] at he
    cases hI : u.mon.Init u.st with
    | none => simp only [unitStep, hpc, hI, errInv]; exact he
    | some st1 => simp only [unitStep, hpc, hI, errInv]; exact he
  | regErrors =>
    simp only [errInv, hpc] at he
    cases hR : Register validName c.registry (errMetricOf u.mon) with
    | none => simp only [unitStep, hpc, MustRegister, hR, errInv]; exact he
    | some r => simp only [unitStep, hpc, MustRegister, hR, errInv]
  | regUptime =>
    simp only [errInv, hpc] at he
    cases hR : Register validName c.registry (uptimeMetricOf u.mon) with
    | none => simp only [unitStep, hpc, MustRegister, hR, errInv]; exact he
    | some r => simp only [unitStep, hpc, MustRegister, hR, errInv]; exact he
  | fieldLoop rest =>
    simp only [errInv, hpc] at he
    simp only [unitInv, hpc] at h
    cases rest with
    | nil =>
      simp only [unitStep, hpc, errInv]
      refine ⟨u.st, h.1, ?_⟩
      rw [h.2, he]
      rfl
    | cons field rest =>
      cases hw : c.mapWriting with
      | true => simp [unitStep, hpc, hw, errInv]; exact he
      | false => simp [unitStep, hpc, hw, errInv]; exact he
  | fieldStore field rest =>
    simp only [errInv, hpc] at he
    cases hw : c.mapWriting with
    | true => simp [unitStep, hpc, hw, errInv]; exact he
    | false => simp [unitStep, hpc, hw, errInv]; exact he
  | fieldLoad field rest =>
    simp only [errInv, hpc] at he
    cases hw : c.mapWriting with
    | true => simp [unitStep, hpc, hw, errInv]; exact he
    | false => simp [unitStep, hpc, hw, errInv]; exact he
  | fieldRegister field read rest =>
    simp only [errInv, hpc] at he
    cases read with
    | none => simp only [unitStep, hpc, errInv]; exact he
    | some col =>
      cases hR : Register validName c.registry col with
      | none => simp only [unitStep, hpc, hR, errInv]; exact he
      | some r => simp only [unitStep, hpc, hR, errInv]; exact he
  | polling =>
    simp only [errInv, hpc] at he
    obtain ⟨st1, h1, h2⟩ := he
    simp only [unitStep, hpc, errInv, pollOnce]
    refine ⟨st1, h1, ?_⟩
    rw [pollLoop_succ_right, ← h2]
  | dead =>
    simp only [unitStep, hpc]
    exact he

/-- In every execution from `boot` every goroutine satisfies `errInv`. -/
theorem run_errInv {σ V : Type} (validName : String → Bool)
    (MONITORS : List (Monitor σ V × σ)) (sched : List (Option Nat)) :
    ∀ p : Proc σ V, procInv MONITORS p → (∀ u ∈ p.units, errInv u) →
      ∀ u ∈ (run validName p sched).units, errInv u := by
  induction sched with
  | nil => intro p _ h; exact h
  | cons w rest ih =>
    intro p hp h
    refine ih _ (step_procInv validName MONITORS p w hp) ?_
    intro v hv
    rcases step_units validName p w v hv with hv | ⟨m, t, hv⟩ | ⟨u, hu, hv⟩
    · exact h v hv
    · rw [hv]; simp [errInv, goStartMonitor]
    · rw [hv]; exact unitStep_errInv validName p.core u (hp.2.1 u hu).1 (h u hu)

/-- C3: the error counter is 0 before the first pass of the polling loop;
after `n` passes it has grown by the number of passes in which `UpdateValues`
returned an error, so from 0 it is that number; `n` failing passes in a row
give exactly `n`; and it never decreases as the loop goes on.  In every
execution of the process the error counter of every goroutine is 0 until its
polling loop is entered and afterwards is the number of its `UpdateValues`
calls so far that returned an error. -/
theorem C3_error_counter {σ V : Type} (validName : String → Bool)
    (MONITORS : List (Monitor σ V × σ)) (registry : List String) (portFree : Bool)
    (sched : List (Option Nat)) (mon : Monitor σ V) (st : σ) (n : Nat) :
    (pollLoop mon 0 (st, 0)).2 = 0 ∧
    (pollLoop mon n (st, 0)).2 = (updateResults mon n st).count true ∧
    (∀ k, (pollLoop mon n (st, k)).2 = k + (updateResults mon n st).count true) ∧
    ((∀ r ∈ updateResults mon n st, r = true) → (pollLoop mon n (st, 0)).2 = n) ∧
    (updateResults mon n st).length = n ∧
    (∀ m k, (pollLoop mon n (st, k)).2 ≤ (pollLoop mon (n + m) (st, k)).2) ∧
    (∀ u ∈ (run validName (boot MONITORS registry portFree) sched).units,
      (u.pc ≠ Pc.polling → u.errors = 0) ∧
      (u.pc = Pc.polling → ∃ st1, u.mon.Init u.st0 = some st1 ∧
        u.errors = (updateResults u.mon u.updates st1).count true)) := by
  have hlen : ∀ (n : Nat) (st : σ), (updateResults mon n st).length = n := by
    intro n
    induction n with
    | zero => intro st; rfl
    | succ n ih => intro st; simp [updateResults, ih]
  refine ⟨rfl, ?_, fun k => pollLoop_count mon n st k, ?_, hlen n st, ?_, ?_⟩
  · rw [pollLoop_count]; simp
  · intro hall
    rw [pollLoop_count, Nat.zero_add]
    have hc : (updateResults mon n st).count true = (updateResults mon n st).length :=
      List.count_eq_length.mpr (fun r hr => (hall r hr).symm)
    rw [hc, hlen]
  · intro m k
    rw [pollLoop_add]
    exact pollLoop_le mon m _
  · intro u hu
    have he := run_errInv validName MONITORS sched _ (boot_procInv MONITORS registry portFree)
      (by simp [boot]) u hu
    constructor
    · intro hpc
      cases hc : u.pc with
      | polling => exact absurd hc hpc
      | init => simp only [errInv, hc] at he; exact he
      | regErrors => simp only [errInv, hc] at he; exact he
      | regUptime => simp only [errInv, hc] at he; exact he
      | fieldLoop rest => simp only [errInv, hc] at he; exact he
      | fieldStore f rest => simp only [errInv, hc] at he; exact he
      | fieldLoad f rest => simp only [errInv, hc] at he; exact he
      | fieldRegister f r rest => simp only [errInv, hc] at he; exact he
      | dead => simp only [errInv, hc] at he; exact he
    · intro hpc
      simp only [errInv, hpc] at he
      obtain ⟨st1, h1, h2⟩ := he
      refine ⟨st1, h1, ?_⟩
      have h3 := congrArg Prod.snd h2
      simp only at h3
      rw [h3, pollLoop_count, Nat.zero_add]

/-- C3, at the monitor `disk` with three measurements that cannot be
completed: the counter is 3. -/
theorem C3_error_counter_witness :
    (pollLoop diskMonitor 3 ({ script := [none, none, none], current := 0 }, 0)).2 = 3 :=
  (C3_error_counter legacyValidName [] [] true [] diskMonitor
    { script := [none, none, none], current := 0 } 3).2.2.2.1 (by decide)


/-! ## A failing `Init` -/

/-- C7 (as stated): with the monitors `disk` and `net`, where `Init` of `net`
fails, the main goroutine can start both goroutines, set up the metrics
handler and reach `http.ListenAndServe` while the process is running, and
`disk` can register its metrics and be polled, before the goroutine of `net`
runs `Init` and ends the process. -/
theorem C7_counterexample :
    (brokenMonitor "net").Init { script := [], current := 0 } = none ∧
    (run legacyValidName (boot diskAndBrokenNet [] true)
      [none, none, none, none, none, none, some 0, some 0, some 0, some 0, some 0,
        some 0, some 0, some 0, some 0]).serving = true ∧
    (run legacyValidName (boot diskAndBrokenNet [] true)
      [none, none, none, none, none, none, some 0, some 0, some 0, some 0, some 0,
        some 0, some 0, some 0, some 0]).exited = none ∧
    (run legacyValidName (boot diskAndBrokenNet [] true)
      [none, none, none, none, none, none, some 0, some 0, some 0, some 0, some 0,
        some 0, some 0, some 0, some 0]).core.registry
      = ["promhttp_metric_handler_requests_total",
          "promhttp_metric_handler_requests_in_flight",
          "disk_errors", "disk_uptime", "disk_free_pct"] ∧
    (run legacyValidName (boot diskAndBrokenNet [] true)
      [none, none, none, none, none, none, some 0, some 0, some 0, some 0, some 0,
        some 0, some 0, some 0, some 0]).units.map (fun w => (w.pc, w.updates))
      = [(Pc.polling, 1), (Pc.init, 0)] ∧
    (run legacyValidName (boot diskAndBrokenNet [] true)
      [none, none, none, none, none, none, some 0, some 0, some 0, some 0, some 0,
        some 0, some 0, some 0, some 0, some 1]).exited = some Fatal.initAborted ∧
    (run legacyValidName (boot diskAndBrokenNet [] true)
      [none, none, none, none, none, none, some 0, some 0, some 0, some 0, some 0,
        some 0, some 0, some 0, some 0, some 1]).serving = true := by
  decide

/-- C7 (amended): if `Init` of the `i`-th monitor fails, then in every
execution its goroutine, once started, has registered no metric and has never
called `UpdateValues`, and it is either still before `Init` or has ended
together with the process, which `Init` ended; whenever the process is running
and that goroutine takes its step, that step ends the process, with the
registry and the serving state as they were, and leaves the goroutine ended;
and once the process has ended nothing changes any more.  (The main goroutine
may have reached `http.ListenAndServe` before.) -/
theorem C7_init_failure {σ V : Type} (validName : String → Bool)
    (MONITORS : List (Monitor σ V × σ)) (registry : List String) (portFree : Bool)
    (sched : List (Option Nat)) (i : Nat) (m : Monitor σ V × σ)
    (hm : MONITORS[i]? = some m) (hfail : m.1.Init m.2 = none) :
    (∀ u, (run validName (boot MONITORS registry portFree) sched).units[i]? = some u →
      u.mon = m.1 ∧ u.st0 = m.2 ∧ u.registered = [] ∧ u.updates = 0 ∧
      (u.pc = Pc.init ∨
        (u.pc = Pc.dead ∧
          (run validName (boot MONITORS registry portFree) sched).exited
            = some Fatal.initAborted))) ∧
    (∀ u, (run validName (boot MONITORS registry portFree) sched).exited = none →
      (run validName (boot MONITORS registry portFree) sched).units[i]? = some u →
      (step validName (run validName (boot MONITORS registry portFree) sched) (some i)).exited
        = some Fatal.initAborted ∧
      (step validName (run validName (boot MONITORS registry portFree) sched) (some i)).core
        = (run validName (boot MONITORS registry portFree) sched).core ∧
      (step validName (run validName (boot MONITORS registry portFree) sched) (some i)).serving
        = (run validName (boot MONITORS registry portFree) sched).serving ∧
      ∃ w, (step validName (run validName (boot MONITORS registry portFree) sched)
          (some i)).units[i]? = some w ∧
        w.pc = Pc.dead ∧ w.registered = [] ∧ w.updates = 0) ∧
    ((run validName (boot MONITORS registry portFree) sched).exited ≠ none →
      ∀ more, run validName (run validName (boot MONITORS registry portFree) sched) more
        = run validName (boot MONITORS registry portFree) sched) := by
  have hinv := run_procInv validName MONITORS sched _ (boot_procInv MONITORS registry portFree)
  have key : ∀ u, (run validName (boot MONITORS registry portFree) sched).units[i]? = some u →
      u.mon = m.1 ∧ u.st0 = m.2 ∧ u.registered = [] ∧ u.updates = 0 ∧
      ((u.pc = Pc.init ∧ u.st = u.st0) ∨
        (u.pc = Pc.dead ∧
          (run validName (boot MONITORS registry portFree) sched).exited
            = some Fatal.initAborted)) := by
    intro u hu
    have em := unit_of_procInv MONITORS _ hinv i u m hu hm
    have hf : u.mon.Init u.st0 = none := by rw [em] at hfail; exact hfail
    obtain ⟨hui, _, hud⟩ := hinv.2.1 u (List.getElem?_mem hu)
    refine ⟨by rw [em], by rw [em], ?_⟩
    cases hpc : u.pc with
    | init =>
      simp only [unitInv, hpc] at hui
      exact ⟨hui.2.1, hui.2.2, Or.inl ⟨rfl, hui.1⟩⟩
    | regErrors =>
      simp only [unitInv, hpc] at hui
      rw [hf] at hui; cases hui.1
    | regUptime =>
      simp only [unitInv, hpc] at hui
      rw [hf] at hui; cases hui.1
    | fieldLoop rest =>
      simp only [unitInv, hpc] at hui
      rw [hf] at hui; cases hui.1
    | fieldStore f rest =>
      simp only [unitInv, hpc] at hui
      rw [hf] at hui; cases hui.1
    | fieldLoad f rest =>
      simp only [unitInv, hpc] at hui
      rw [hf] at hui; cases hui.1
    | fieldRegister f r rest =>
      simp only [unitInv, hpc] at hui
      rw [hf] at hui; cases hui.1
    | polling =>
      simp only [unitInv, hpc] at hui
      obtain ⟨st1, h1⟩ := hui
      rw [hf] at h1; cases h1
    | dead =>
      simp only [unitInv, hpc] at hui
      exact ⟨hui.2 hf, hui.1, Or.inr ⟨rfl, hud hpc hf⟩⟩
  refine ⟨?_, ?_, fun hex more => run_exited validName more _ hex⟩
  · intro u hu
    obtain ⟨a1, a2, a3, a4, a5⟩ := key u hu
    refine ⟨a1, a2, a3, a4, ?_⟩
    rcases a5 with ⟨h, _⟩ | h
    · exact Or.inl h
    · exact Or.inr h
  · intro u hex hu
    obtain ⟨a1, a2, a3, a4, a5⟩ := key u hu
    rcases a5 with ⟨hpc, hst⟩ | ⟨_, h⟩
    · have hI : u.mon.Init u.st = none := by rw [hst, a1, a2]; exact hfail
      have hlt : i < (run validName (boot MONITORS registry portFree) sched).units.length :=
        (List.getElem?_eq_some.mp hu).1
      have e1 : step validName (run validName (boot MONITORS registry portFree) sched) (some i) =
          { run validName (boot MONITORS registry portFree) sched with
            units := (run validName (boot MONITORS registry portFree) sched).units.set i
              { u with pc := Pc.dead },
            exited := some Fatal.initAborted } := by
        simp only [step, hex, hu, unitStep, hpc, hI]
      rw [e1]
      exact ⟨rfl, rfl, rfl, _, List.getElem?_set_self hlt, rfl, a3, a4⟩
    · rw [hex] at h; cases h

/-- C7 (amended), at the monitors `disk` and `net` where `Init` of `net`
fails, in the execution in which the main goroutine reaches
`http.ListenAndServe` and `disk` is polled before `net` runs `Init`: the
goroutine of `net` registered nothing and was never polled. -/
theorem C7_init_failure_witness :
    ∃ u, (run legacyValidName (boot diskAndBrokenNet [] true)
        [none, none, none, none, none, none, some 0, some 0, some 0, some 0, some 0,
          some 0, some 0, some 0, some 0, some 1]).units[1]? = some u ∧
      u.registered = [] ∧ u.updates = 0 :=
  have h := (C7_init_failure legacyValidName diskAndBrokenNet [] true
    [none, none, none, none, none, none, some 0, some 0, some 0, some 0, some 0,
      some 0, some 0, some 0, some 0, some 1] 1
    (brokenMonitor "net", { script := [], current := 0 }) rfl rfl).1 _ rfl
  ⟨_, rfl, h.2.2.1, h.2.2.2.1⟩

/-! ## Names registered when no monitor has the empty name -/

theorem fieldMetric_fqName_cases {σ V : Type} (mon : Monitor σ V) (field : String)
    (hs : mon.Name ≠ "") :
    (fieldMetricOf mon field).fqName = getFieldKey mon field ∨
      (fieldMetricOf mon field).fqName = "" := by
  by_cases hf : field = ""
  · right
    rw [hf]
    exact BuildFQName_empty_name _
  · exact Or.inl (fieldMetric_fqName mon field hs hf)

theorem mapOK_mapSet (m : List (String × Collector)) (k : String) (v : Collector)
    (hm : mapOK m) (hv : v.fqName = k ∨ v.fqName = "") : mapOK (mapSet m k v) := by
  intro e he
  simp only [mapSet, List.mem_cons, List.mem_filter] at he
  rcases he with he | he
  · rw [he]; exact hv
  · exact hm e he.1

theorem mapGet_mem (m : List (String × Collector)) (k : String) (col : Collector)
    (h : mapGet m k = some col) : (k, col) ∈ m := by
  simp only [mapGet, Option.map_eq_some'] at h
  obtain ⟨e, he, hc⟩ := h
  have h1 := List.find?_some he
  have h2 := List.mem_of_find?_eq_some he
  simp only [beq_iff_eq] at h1
  rw [← h1, ← hc]
  exact h2

theorem mapGet_mapSet (m : List (String × Collector)) (k : String) (v : Collector) :
    mapGet (mapSet m k v) k = some v := by
  simp [mapGet, mapSet]

theorem metricKeys_append {σ V : Type} (mon : Monitor σ V) (done : List String)
    (field : String) :
    metricKeys mon done ++ [getFieldKey mon field] = metricKeys mon (done ++ [field]) := by
  simp [metricKeys]

theorem unitStep_keyInv {σ V : Type} (validName : String → Bool) (c : Core)
    (u : PollUnit σ V) (hv0 : validName "" = false) (hs : u.mon.Name ≠ "")
    (hmap : mapOK c.fieldMetrics) (h : unitInv u) (hk : keyInv u) :
    keyInv (unitStep validName c u).2.1 ∧ mapOK (unitStep validName c u).1.fieldMetrics := by
  cases hpc : u.pc with
  | init =>
    cases hI : u.mon.Init u.st with
    | none => simp only [unitStep, hpc, hI, keyInv]; exact ⟨trivial, hmap⟩
    | some st1 => simp only [unitStep, hpc, hI, keyInv]; exact ⟨trivial, hmap⟩
  | regErrors =>
    simp only [unitInv, hpc] at h
    cases hR : Register validName c.registry (errMetricOf u.mon) with
    | none => simp only [unitStep, hpc, MustRegister, hR, keyInv]; exact ⟨trivial, hmap⟩
    | some r =>
      simp only [unitStep, hpc, MustRegister, hR, keyInv]
      refine ⟨?_, hmap⟩
      rw [h.2.1, errMetric_fqName u.mon hs]
      rfl
  | regUptime =>
    simp only [keyInv, hpc] at hk
    cases hR : Register validName c.registry (uptimeMetricOf u.mon) with
    | none => simp only [unitStep, hpc, MustRegister, hR, keyInv]; exact ⟨trivial, hmap⟩
    | some r =>
      simp only [unitStep, hpc, MustRegister, hR, keyInv]
      refine ⟨⟨[], by simp, ?_⟩, hmap⟩
      rw [hk, uptimeMetric_fqName u.mon hs]
      rfl
  | fieldLoop rest =>
    simp only [keyInv, hpc] at hk
    simp only [unitInv, hpc] at h
    cases rest with
    | nil =>
      simp only [unitStep, hpc, keyInv]
      obtain ⟨done, hd1, hd2⟩ := hk
      refine ⟨⟨u.st, h.1, ?_⟩, hmap⟩
      rw [hd2, hd1, List.append_nil]
    | cons field rest =>
      cases hw : c.mapWriting with
      | true => simp [unitStep, hpc, hw, keyInv]; exact hmap
      | false => simp [unitStep, hpc, hw, keyInv]; exact ⟨hk, hmap⟩
  | fieldStore field rest =>
    simp only [keyInv, hpc] at hk
    cases hw : c.mapWriting with
    | false => simp [unitStep, hpc, hw, keyInv]; exact hmap
    | true =>
      simp [unitStep, hpc, hw, keyInv]
      exact ⟨hk, mapOK_mapSet _ _ _ hmap (fieldMetric_fqName_cases u.mon field hs)⟩
  | fieldLoad field rest =>
    simp only [keyInv, hpc] at hk
    cases hw : c.mapWriting with
    | true => simp [unitStep, hpc, hw, keyInv]; exact hmap
    | false =>
      simp [unitStep, hpc, hw, keyInv]
      refine ⟨⟨hk, ?_⟩, hmap⟩
      intro col hcol
      exact hmap _ (mapGet_mem _ _ _ hcol)
  | fieldRegister field read rest =>
    simp only [keyInv, hpc] at hk
    cases read with
    | none => simp only [unitStep, hpc, keyInv]; exact ⟨trivial, hmap⟩
    | some col =>
      cases hR : Register validName c.registry col with
      | none => simp only [unitStep, hpc, hR, keyInv]; exact ⟨trivial, hmap⟩
      | some r =>
        obtain ⟨hval, _, _⟩ := (Register_some_iff _ _ _ _).mp hR
        simp only [unitStep, hpc, hR, keyInv]
        obtain ⟨⟨done, hd1, hd2⟩, hcol⟩ := hk
        have hfq : col.fqName = getFieldKey u.mon field := by
          rcases hcol col rfl with hc | hc
          · exact hc
          · rw [hc, hv0] at hval; cases hval
        refine ⟨⟨done ++ [field], by rw [hd1]; simp, ?_⟩, hmap⟩
        rw [hd2, hfq]
        exact metricKeys_append u.mon done field
  | polling =>
    simp only [keyInv, hpc] at hk
    simp only [unitStep, hpc, keyInv, pollOnce]
    exact ⟨hk, hmap⟩
  | dead =>
    simp only [unitStep, hpc]
    exact ⟨hk, hmap⟩

/-- Every goroutine runs a monitor of `MONITORS`. -/
theorem unit_mem_MONITORS {σ V : Type} (MONITORS : List (Monitor σ V × σ)) (p : Proc σ V)
    (h : procInv MONITORS p) (u : PollUnit σ V) (hu : u ∈ p.units) :
    (u.mon, u.st0) ∈ MONITORS := by
  rw [← h.1]
  exact List.mem_append_left _ (List.mem_map.mpr ⟨u, hu, rfl⟩)

/-- When no monitor has the empty name and the empty string is no valid
metric name, every step keeps `keyInv` of every goroutine and `mapOK`. -/
theorem step_keyInv {σ V : Type} (validName : String → Bool)
    (MONITORS : List (Monitor σ V × σ)) (p : Proc σ V) (who : Option Nat)
    (hv0 : validName "" = false) (hne : ∀ m ∈ MONITORS, m.1.Name ≠ "")
    (hp : procInv MONITORS p) (hk : ∀ u ∈ p.units, keyInv u)
    (hmap : mapOK p.core.fieldMetrics) :
    (∀ u ∈ (step validName p who).units, keyInv u) ∧
      mapOK (step validName p who).core.fieldMetrics := by
  constructor
  · intro w hw
    rcases step_units validName p who w hw with hw | ⟨m, t, hw⟩ | ⟨u, hu, hw⟩
    · exact hk w hw
    · rw [hw]; simp [keyInv, goStartMonitor]
    · rw [hw]
      exact (unitStep_keyInv validName p.core u hv0
        (hne _ (unit_mem_MONITORS MONITORS p hp u hu)) hmap (hp.2.1 u hu).1 (hk u hu)).1
  · cases hex : p.exited with
    | some e =>
      rw [show step validName p who = p by simp only [step, hex]]
      exact hmap
    | none =>
      cases who with
      | none =>
        rw [show step validName p none = mainStep validName p by simp only [step, hex]]
        rcases mainStep_cases validName p with ⟨m, rest, _, _, e2⟩ | ⟨_, _, a3, _⟩
        · rw [e2]; exact hmap
        · rw [a3]; exact hmap
      | some i =>
        cases hget : p.units[i]? with
        | none =>
          rw [show step validName p (some i) = p by simp only [step, hex, hget]]
          exact hmap
        | some u =>
          rw [show step validName p (some i) =
              { p with core := (unitStep validName p.core u).1,
                       units := p.units.set i (unitStep validName p.core u).2.1,
                       exited := (unitStep validName p.core u).2.2 } by
            simp only [step, hex, hget]]
          have hu := List.getElem?_mem hget
          exact (unitStep_keyInv validName p.core u hv0
            (hne _ (unit_mem_MONITORS MONITORS p hp u hu)) hmap (hp.2.1 u hu).1 (hk u hu)).2

theorem run_keyInv {σ V : Type} (validName : String → Bool)
    (MONITORS : List (Monitor σ V × σ)) (hv0 : validName "" = false)
    (hne : ∀ m ∈ MONITORS, m.1.Name ≠ "") (sched : List (Option Nat)) :
    ∀ p : Proc σ V, procInv MONITORS p → (∀ u ∈ p.units, keyInv u) →
      mapOK p.core.fieldMetrics →
      (∀ u ∈ (run validName p sched).units, keyInv u) ∧
        mapOK (run validName p sched).core.fieldMetrics := by
  induction sched with
  | nil => intro p _ hk hmap; exact ⟨hk, hmap⟩
  | cons w rest ih =>
    intro p hp hk hmap
    obtain ⟨k1, k2⟩ := step_keyInv validName MONITORS p w hv0 hne hp hk hmap
    exact ih _ (step_procInv validName MONITORS p w hp) k1 k2

theorem boot_keyInv {σ V : Type} (validName : String → Bool)
    (MONITORS : List (Monitor σ V × σ)) (hv0 : validName "" = false)
    (hne : ∀ m ∈ MONITORS, m.1.Name ≠ "") (registry : List String) (portFree : Bool)
    (sched : List (Option Nat)) :
    (∀ u ∈ (run validName (boot MONITORS registry portFree) sched).units, keyInv u) ∧
      mapOK (run validName (boot MONITORS registry portFree) sched).core.fieldMetrics :=
  run_keyInv validName MONITORS hv0 hne sched _ (boot_procInv MONITORS registry portFree)
    (by simp [boot]) (by simp [boot, mapOK])

/-! ## Colliding monitors -/

/-- C8 (as stated): the monitors `a` with field `b_c` and `a_b` with field `c`
have the same key `a_b_c`; the goroutine of the first can finish set-up and
call `UpdateValues` before the goroutine of the second is even started, and
the registration of the second then fails. -/
theorem C8_counterexample :
    getFieldKey (scriptedMonitor "a" ["b_c"]) "b_c"
      = getFieldKey (scriptedMonitor "a_b" ["c"]) "c" ∧
    (run legacyValidName (boot collidingPair [] true)
      ([none] ++ steps 0 9)).units.map (fun w => (w.pc, w.updates)) = [(Pc.polling, 1)] ∧
    (run legacyValidName (boot collidingPair [] true) ([none] ++ steps 0 9)).exited = none ∧
    (run legacyValidName (boot collidingPair [] true)
      ([none] ++ steps 0 9 ++ [none] ++ steps 1 7)).exited
      = some (Fatal.registerFailed "a_b_c") ∧
    (run legacyValidName (boot collidingPair [] true)
      ([none] ++ steps 0 9 ++ [none] ++ steps 1 7)).units.map (fun w => (w.pc, w.updates))
      = [(Pc.polling, 1), (Pc.dead, 0)] := by
  decide

/-- C8 (amended): in every execution a goroutine that is not in its polling
loop, so in particular one whose registration failed, has never called
`UpdateValues`; and when no monitor of `MONITORS` has the empty name (and the
empty string is no valid metric name), two monitors of `MONITORS` whose `Init`
succeeds and which have a metric key in common never have their two goroutines
both in the polling loop.  (The goroutine that registers the common key first
may be polling before the registration of the other fails.) -/
theorem C8_collision {σ V : Type} (validName : String → Bool)
    (MONITORS : List (Monitor σ V × σ)) (registry : List String) (portFree : Bool)
    (sched : List (Option Nat)) :
    (∀ u ∈ (run validName (boot MONITORS registry portFree) sched).units,
      u.pc ≠ Pc.polling → u.updates = 0) ∧
    (validName "" = false → (∀ m ∈ MONITORS, m.1.Name ≠ "") →
      ∀ (i j : Nat) (m n : Monitor σ V × σ) (st1 st2 : σ), i ≠ j →
        MONITORS[i]? = some m → MONITORS[j]? = some n →
        m.1.Init m.2 = some st1 → n.1.Init n.2 = some st2 →
        (∃ x, x ∈ metricKeys m.1 (m.1.GetFields st1) ∧
          x ∈ metricKeys n.1 (n.1.GetFields st2)) →
        ∀ u w, (run validName (boot MONITORS registry portFree) sched).units[i]? = some u →
          (run validName (boot MONITORS registry portFree) sched).units[j]? = some w →
          ¬ (u.pc = Pc.polling ∧ w.pc = Pc.polling)) := by
  have hinv := run_procInv validName MONITORS sched _ (boot_procInv MONITORS registry portFree)
  constructor
  · intro u hu hpc
    have hui := (hinv.2.1 u hu).1
    cases hc : u.pc with
    | init => simp only [unitInv, hc] at hui; exact hui.2.2
    | regErrors => simp only [unitInv, hc] at hui; exact hui.2.2
    | regUptime => simp only [unitInv, hc] at hui; exact hui.2
    | fieldLoop rest => simp only [unitInv, hc] at hui; exact hui.2
    | fieldStore f rest => simp only [unitInv, hc] at hui; exact hui.2
    | fieldLoad f rest => simp only [unitInv, hc] at hui; exact hui.2
    | fieldRegister f r rest => simp only [unitInv, hc] at hui; exact hui.2
    | polling => exact absurd hc hpc
    | dead => simp only [unitInv, hc] at hui; exact hui.1
  · intro hv0 hne i j m n st1 st2 hij hm hn hi1 hi2 hcol u w hu hw
    rintro ⟨hpu, hpw⟩
    have hk := (boot_keyInv validName MONITORS hv0 hne registry portFree sched).1
    have eu := unit_of_procInv MONITORS _ hinv i u m hu hm
    have ew := unit_of_procInv MONITORS _ hinv j w n hw hn
    have hui := hk u (List.getElem?_mem hu)
    have hwi := hk w (List.getElem?_mem hw)
    simp only [keyInv, hpu] at hui
    simp only [keyInv, hpw] at hwi
    obtain ⟨s1, a1, a2⟩ := hui
    obtain ⟨s2, b1, b2⟩ := hwi
    rw [eu] at hi1 hcol
    rw [ew] at hi2 hcol
    simp only at hi1 hi2 hcol
    rw [hi1] at a1
    rw [hi2] at b1
    cases a1
    cases b1
    obtain ⟨x, hx1, hx2⟩ := hcol
    rw [← a2] at hx1
    rw [← b2] at hx2
    exact nodup_flatMap_disjoint (fun (v : PollUnit σ V) => v.registered) _ i j u w
      hinv.2.2.1 hij hu hw x hx1 hx2

/-- C8 (amended), at the monitors `a` with field `b_c` and `a_b` with field
`c` in the execution in which the first is polled before the second is
started: the two goroutines are not both in the polling loop. -/
theorem C8_collision_witness :
    ∀ u w, (run legacyValidName (boot collidingPair [] true)
        [none, some 0, some 0, some 0, some 0, some 0, some 0, some 0, some 0, some 0,
          none, some 1, some 1, some 1, some 1, some 1, some 1, some 1]).units[0]? = some u →
      (run legacyValidName (boot collidingPair [] true)
        [none, some 0, some 0, some 0, some 0, some 0, some 0, some 0, some 0, some 0,
          none, some 1, some 1, some 1, some 1, some 1, some 1, some 1]).units[1]? = some w →
      ¬ (u.pc = Pc.polling ∧ w.pc = Pc.polling) :=
  (C8_collision legacyValidName collidingPair [] true
    [none, some 0, some 0, some 0, some 0, some 0, some 0, some 0, some 0, some 0,
      none, some 1, some 1, some 1, some 1, some 1, some 1, some 1]).2 (by decide) (by decide)
    0 1
    (scriptedMonitor "a" ["b_c"], { script := [], current := 0 })
    (scriptedMonitor "a_b" ["c"], { script := [], current := 0 })
    { script := [], current := 0 } { script := [], current := 0 }
    (by decide) rfl rfl rfl rfl ⟨"a_b_c", by decide, by decide⟩

/-! ## Set-up of one goroutine without interruption -/

theorem set_same {α : Type} : ∀ (l : List α) (i : Nat) (a : α), l[i]? = some a → l.set i a = l := by
  intro l
  induction l with
  | nil => intro i a h; simp at h
  | cons x t ih =>
    intro i a h
    cases i with
    | zero =>
      simp only [List.getElem?_cons_zero, Option.some.injEq] at h
      rw [h]; rfl
    | succ i =>
      simp only [List.getElem?_cons_succ] at h
      simp only [List.set_cons_succ, ih i a h]

/-- Steps of one goroutine in a row, none of them fatal, change the process as
`unitRun` says. -/
theorem run_solo {σ V : Type} (validName : String → Bool) (i : Nat) :
    ∀ (n : Nat) (p : Proc σ V) (u : PollUnit σ V) (c1 : Core) (u1 : PollUnit σ V),
      p.exited = none → p.units[i]? = some u →
      unitRun validName n p.core u = (c1, u1, none) →
      run validName p (steps i n) = { p with core := c1, units := p.units.set i u1 } := by
  intro n
  induction n with
  | zero =>
    intro p u c1 u1 _ hu h
    simp only [unitRun, Prod.mk.injEq, and_true] at h
    obtain ⟨h1, h2⟩ := h
    subst h1 h2
    rw [set_same _ _ _ hu]
    rfl
  | succ n ih =>
    intro p u c1 u1 hex hu h
    have hlt : i < p.units.length := (List.getElem?_eq_some.mp hu).1
    have e1 : step validName p (some i) =
        { p with core := (unitStep validName p.core u).1,
                 units := p.units.set i (unitStep validName p.core u).2.1,
                 exited := (unitStep validName p.core u).2.2 } := by
      simp only [step, hex, hu]
    rcases hs : unitStep validName p.core u with ⟨c2, u2, f⟩
    rw [hs] at e1
    cases f with
    | some e =>
      simp only [unitRun, hs, Prod.mk.injEq] at h
      cases h.2.2
    | none =>
      simp only [unitRun, hs] at h
      have h2 := ih { p with core := c2, units := p.units.set i u2, exited := none } u2 c1 u1
        rfl (List.getElem?_set_self hlt) h
      simp only [steps, List.replicate_succ, run, List.foldl_cons] at h2 ⊢
      rw [e1, h2]
      cases p
      simp only at hex
      subst hex
      simp [List.set_set]

theorem unitRun_fields_reach {σ V : Type} (validName : String → Bool) :
    ∀ (rest : List String) (c : Core) (u : PollUnit σ V),
      u.pc = Pc.fieldLoop rest → c.mapWriting = false → u.mon.Name ≠ "" →
      (∀ f ∈ rest, f ≠ "") → (∀ f ∈ rest, validName (getFieldKey u.mon f) = true) →
      (rest.map (getFieldKey u.mon)).Nodup →
      (∀ f ∈ rest, getFieldKey u.mon f ∉ c.registry) →
      ∃ c1 u1, unitRun validName (4 * rest.length + 1) c u = (c1, u1, none) ∧
        u1.pc = Pc.polling ∧ u1.st = u.st ∧
        u1.registered = u.registered ++ rest.map (getFieldKey u.mon) ∧
        c1.registry = c.registry ++ rest.map (getFieldKey u.mon) := by
  intro rest
  induction rest with
  | nil =>
    intro c u hpc _ _ _ _ _ _
    refine ⟨c, { u with pc := Pc.polling }, ?_, rfl, rfl, by simp, by simp⟩
    simp only [List.length_nil, Nat.mul_zero, Nat.zero_add, unitRun, unitStep, hpc]
  | cons f rest ih =>
    intro c u hpc hw hname hfields hvalid hnodup hfresh
    have hfq : (fieldMetricOf u.mon f).fqName = getFieldKey u.mon f :=
      fieldMetric_fqName u.mon f hname (hfields f (List.mem_cons_self f rest))
    have hR : Register validName c.registry (fieldMetricOf u.mon f)
        = some (c.registry ++ [getFieldKey u.mon f]) := by
      rw [Register_some_iff, hfq]
      exact ⟨hvalid f (List.mem_cons_self f rest), hfresh f (List.mem_cons_self f rest), rfl⟩
    have e1 : unitStep validName c u =
        ({ c with mapWriting := true }, { u with pc := Pc.fieldStore f rest }, none) := by
      simp [unitStep, hpc, hw]
    have e2 : unitStep validName { c with mapWriting := true }
        { u with pc := Pc.fieldStore f rest } =
        ({ c with fieldMetrics :=
              mapSet c.fieldMetrics (getFieldKey u.mon f) (fieldMetricOf u.mon f),
                  mapWriting := false },
          { u with pc := Pc.fieldLoad f rest }, none) := by
      simp [unitStep]
    have e3 : unitStep validName
        { c with fieldMetrics :=
              mapSet c.fieldMetrics (getFieldKey u.mon f) (fieldMetricOf u.mon f),
                 mapWriting := false }
        { u with pc := Pc.fieldLoad f rest } =
        ({ c with fieldMetrics :=
              mapSet c.fieldMetrics (getFieldKey u.mon f) (fieldMetricOf u.mon f),
                  mapWriting := false },
          { u with pc := Pc.fieldRegister f (some (fieldMetricOf u.mon f)) rest }, none) := by
      simp [unitStep, mapGet_mapSet]
    have e4 : unitStep validName
        { c with fieldMetrics :=
              mapSet c.fieldMetrics (getFieldKey u.mon f) (fieldMetricOf u.mon f),
                 mapWriting := false }
        { u with pc := Pc.fieldRegister f (some (fieldMetricOf u.mon f)) rest } =
        ({ registry := c.registry ++ [getFieldKey u.mon f],
           fieldMetrics :=
              mapSet c.fieldMetrics (getFieldKey u.mon f) (fieldMetricOf u.mon f),
           mapWriting := false },
          { u with pc := Pc.fieldLoop rest,
                   registered := u.registered ++ [getFieldKey u.mon f] }, none) := by
      simp [unitStep, hR, hfq]
    rw [List.map_cons, List.nodup_cons] at hnodup
    obtain ⟨c1, u1, r1, r2, r3, r4, r5⟩ := ih
      { registry := c.registry ++ [getFieldKey u.mon f],
        fieldMetrics :=
          mapSet c.fieldMetrics (getFieldKey u.mon f) (fieldMetricOf u.mon f),
        mapWriting := false }
      { u with pc := Pc.fieldLoop rest,
               registered := u.registered ++ [getFieldKey u.mon f] }
      rfl rfl hname (fun g hg => hfields g (List.mem_cons_of_mem f hg))
      (fun g hg => hvalid g (List.mem_cons_of_mem f hg)) hnodup.2
      (by
        intro g hg hmem
        rcases List.mem_append.mp hmem with h | h
        · exact hfresh g (List.mem_cons_of_mem f hg) h
        · rw [List.mem_singleton] at h
          exact hnodup.1 (h ▸ List.mem_map.mpr ⟨g, hg, rfl⟩))
    refine ⟨c1, u1, ?_, r2, r3, ?_, ?_⟩
    · have en : 4 * (f :: rest).length + 1 = (4 * rest.length + 1) + 1 + 1 + 1 + 1 := by
        simp only [List.length_cons]; omega
      rw [en]
      simp only [unitRun, e1, e2, e3, e4]
      exact r1
    · rw [r4]; simp
    · rw [r5]; simp

/-- A goroutine at the start of `startMonitor` whose `Init` succeeds, with a
non-empty name and non-empty fields, whose keys are valid, pairwise different
and not in the registry, when it steps on its own while no assignment to the
map is under way, reaches its polling loop having registered its keys. -/
theorem unitRun_reach {σ V : Type} (validName : String → Bool) (c : Core)
    (u : PollUnit σ V) (st1 : σ) (hpc : u.pc = Pc.init) (hw : c.mapWriting = false)
    (hinit : u.mon.Init u.st = some st1) (hname : u.mon.Name ≠ "")
    (hfields : ∀ f ∈ u.mon.GetFields st1, f ≠ "")
    (hvalid : ∀ k ∈ metricKeys u.mon (u.mon.GetFields st1), validName k = true)
    (hnodup : (metricKeys u.mon (u.mon.GetFields st1)).Nodup)
    (hfresh : ∀ k ∈ metricKeys u.mon (u.mon.GetFields st1), k ∉ c.registry) :
    ∃ c1 u1, unitRun validName (4 * (u.mon.GetFields st1).length + 4) c u = (c1, u1, none) ∧
      u1.pc = Pc.polling ∧ u1.st = st1 ∧
      u1.registered = u.registered ++ metricKeys u.mon (u.mon.GetFields st1) ∧
      c1.registry = c.registry ++ metricKeys u.mon (u.mon.GetFields st1) := by
  simp only [metricKeys, List.mem_cons, forall_eq_or_imp, List.nodup_cons, not_or] at hvalid hnodup hfresh
  obtain ⟨hv1, hv2, hv3⟩ := hvalid
  obtain ⟨⟨hn1, hn2⟩, hn3, hn4⟩ := hnodup
  obtain ⟨hf1, hf2, hf3⟩ := hfresh
  have hR1 : Register validName c.registry (errMetricOf u.mon)
      = some (c.registry ++ [u.mon.Name ++ "_errors"]) := by
    rw [Register_some_iff, errMetric_fqName u.mon hname]
    exact ⟨hv1, hf1, rfl⟩
  have hR2 : Register validName (c.registry ++ [u.mon.Name ++ "_errors"]) (uptimeMetricOf u.mon)
      = some (c.registry ++ [u.mon.Name ++ "_errors"] ++ [u.mon.Name ++ "_uptime"]) := by
    rw [Register_some_iff, uptimeMetric_fqName u.mon hname]
    refine ⟨hv2, ?_, rfl⟩
    intro hmem
    rcases List.mem_append.mp hmem with h | h
    · exact hf2 h
    · rw [List.mem_singleton] at h
      exact hn1 h.symm
  have e1 : unitStep validName c u = (c, { u with st := st1, pc := Pc.regErrors }, none) := by
    simp only [unitStep, hpc, hinit]
  have e2 : unitStep validName c { u with st := st1, pc := Pc.regErrors } =
      ({ c with registry := c.registry ++ [u.mon.Name ++ "_errors"] },
        { u with st := st1, pc := Pc.regUptime, errors := 0,
                 registered := u.registered ++ [u.mon.Name ++ "_errors"] }, none) := by
    simp only [unitStep, MustRegister, hR1, errMetric_fqName u.mon hname]
  have e3 : unitStep validName { c with registry := c.registry ++ [u.mon.Name ++ "_errors"] }
        { u with st := st1, pc := Pc.regUptime, errors := 0,
                 registered := u.registered ++ [u.mon.Name ++ "_errors"] } =
      ({ c with registry :=
            c.registry ++ [u.mon.Name ++ "_errors"] ++ [u.mon.Name ++ "_uptime"] },
        { u with st := st1, pc := Pc.fieldLoop (u.mon.GetFields st1), errors := 0,
                 registered :=
                  u.registered ++ [u.mon.Name ++ "_errors"] ++ [u.mon.Name ++ "_uptime"] },
        none) := by
    simp only [unitStep, MustRegister, hR2, uptimeMetric_fqName u.mon hname]
  obtain ⟨c1, u1, r1, r2, r3, r4, r5⟩ := unitRun_fields_reach validName (u.mon.GetFields st1)
    { c with registry :=
        c.registry ++ [u.mon.Name ++ "_errors"] ++ [u.mon.Name ++ "_uptime"] }
    { u with st := st1, pc := Pc.fieldLoop (u.mon.GetFields st1), errors := 0,
             registered :=
              u.registered ++ [u.mon.Name ++ "_errors"] ++ [u.mon.Name ++ "_uptime"] }
    rfl hw hname hfields
    (fun f hf => hv3 _ (List.mem_map.mpr ⟨f, hf, rfl⟩)) hn4
    (by
      intro f hf hmem
      have hfm : getFieldKey u.mon f ∈ List.map (getFieldKey u.mon) (u.mon.GetFields st1) :=
        List.mem_map.mpr ⟨f, hf, rfl⟩
      simp only [List.mem_append, List.mem_singleton] at hmem
      rcases hmem with (h | h) | h
      · exact hf3 _ hfm h
      · exact hn2 (h ▸ hfm)
      · exact hn3 (h ▸ hfm))
  refine ⟨c1, u1, ?_, r2, r3, ?_, ?_⟩
  · have en : 4 * (u.mon.GetFields st1).length + 4
        = (4 * (u.mon.GetFields st1).length + 1) + 1 + 1 + 1 := by omega
    rw [en]
    simp only [unitRun, e1, e2, e3]
    exact r1
  · rw [r4]; simp [metricKeys]
  · rw [r5]; simp [metricKeys]
theorem nodup_append_count (registry names : List String) (hnd : names.Nodup)
    (hfresh : ∀ k ∈ names, k ∉ registry) :
    ∀ k ∈ names, (registry ++ names).count k = 1 := by
  intro k hk
  rw [List.count_append, List.count_eq_zero_of_not_mem (hfresh k hk),
    List.count_eq_one_of_mem hnd hk]


/-! ## The names a goroutine registers -/

/-- C1 (as stated): a monitor with the empty name, alone in `MONITORS`,
reaches its polling loop having registered `errors`, `uptime` and `free_pct`,
which are not its keys `_errors`, `_uptime`, `_free_pct`; and the monitor
`_a` with field `b`, beside the monitor with the empty name and field `a_b`
that wrote the same map entry after it, reaches its polling loop having
registered `a_b` and not its key `_a_b`. -/
theorem C1_counterexample :
    ((run legacyValidName
        (boot [(scriptedMonitor "" ["free_pct"], { script := [], current := 0 })] [] true)
        ([none] ++ steps 0 8)).units.map (fun w => (w.pc, w.registered))
        = [(Pc.polling, ["errors", "uptime", "free_pct"])] ∧
      metricKeys (scriptedMonitor "" ["free_pct"]) ["free_pct"]
        = ["_errors", "_uptime", "_free_pct"]) ∧
    ((run legacyValidName (boot sharedKeyPair [] true)
        ([none, none] ++ steps 0 5 ++ steps 1 5 ++ steps 0 3)).units.map
          (fun w => (w.pc, w.registered))
        = [(Pc.polling, ["_a_errors", "_a_uptime", "a_b"]),
            (Pc.fieldLoad "a_b" [], ["errors", "uptime"])] ∧
      (run legacyValidName (boot sharedKeyPair [] true)
        ([none, none] ++ steps 0 5 ++ steps 1 5 ++ steps 0 3)).exited = none ∧
      metricKeys (scriptedMonitor "_a" ["b"]) ["b"] = ["_a_errors", "_a_uptime", "_a_b"]) := by
  decide

/-- C1 (amended): a goroutine at the start of `startMonitor` in a running
process, for a monitor with a non-empty name and non-empty field names whose
`Init` succeeds and whose keys `<name>_errors`, `<name>_uptime`,
`<name>_<field>` are valid metric names, pairwise different and not in the
registry, when it takes its set-up steps without another goroutine stepping in
between and no assignment to the map is under way, reaches its polling loop,
and the registry then is the earlier registry followed by exactly those keys,
each occurring once.  And in every execution of the process in which no
monitor has the empty name (the empty string being no valid metric name), a
goroutine that is in its polling loop has registered exactly the keys of its
error counter, its uptime gauge and its fields, each of which occurs once in
the registry. -/
theorem C1_registered_names {σ V : Type} (validName : String → Bool) (p : Proc σ V)
    (i : Nat) (u : PollUnit σ V) (st1 : σ) (hex : p.exited = none)
    (hu : p.units[i]? = some u) (hpc : u.pc = Pc.init) (hw : p.core.mapWriting = false)
    (hinit : u.mon.Init u.st = some st1) (hname : u.mon.Name ≠ "")
    (hfields : ∀ f ∈ u.mon.GetFields st1, f ≠ "")
    (hvalid : ∀ k ∈ metricKeys u.mon (u.mon.GetFields st1), validName k = true)
    (hnodup : (metricKeys u.mon (u.mon.GetFields st1)).Nodup)
    (hfresh : ∀ k ∈ metricKeys u.mon (u.mon.GetFields st1), k ∉ p.core.registry) :
    ((run validName p (steps i (4 * (u.mon.GetFields st1).length + 4))).exited = none ∧
      (run validName p (steps i (4 * (u.mon.GetFields st1).length + 4))).core.registry
        = p.core.registry ++ metricKeys u.mon (u.mon.GetFields st1) ∧
      (∀ k ∈ metricKeys u.mon (u.mon.GetFields st1),
        (run validName p (steps i (4 * (u.mon.GetFields st1).length + 4))).core.registry.count k
          = 1) ∧
      ∃ w, (run validName p (steps i (4 * (u.mon.GetFields st1).length + 4))).units[i]?
          = some w ∧
        w.pc = Pc.polling ∧ w.st = st1 ∧
        w.registered = u.registered ++ metricKeys u.mon (u.mon.GetFields st1)) ∧
    (∀ (MONITORS : List (Monitor σ V × σ)) (registry0 : List String) (portFree : Bool)
        (sched : List (Option Nat)),
      validName "" = false → (∀ m ∈ MONITORS, m.1.Name ≠ "") →
      ∀ w ∈ (run validName (boot MONITORS registry0 portFree) sched).units,
        w.pc = Pc.polling →
        ∃ s1, w.mon.Init w.st0 = some s1 ∧
          w.registered = metricKeys w.mon (w.mon.GetFields s1) ∧ w.registered.Nodup ∧
          ∀ k ∈ w.registered,
            (run validName (boot MONITORS registry0 portFree) sched).core.registry.count k
              = 1) := by
  constructor
  · obtain ⟨c1, u1, r1, r2, r3, r4, r5⟩ :=
      unitRun_reach validName p.core u st1 hpc hw hinit hname hfields hvalid hnodup hfresh
    have hlt : i < p.units.length := (List.getElem?_eq_some.mp hu).1
    rw [run_solo validName i _ p u c1 u1 hex hu r1]
    refine ⟨hex, r5, ?_, u1, List.getElem?_set_self hlt, r2, r3, r4⟩
    intro k hk
    show c1.registry.count k = 1
    rw [r5]
    exact nodup_append_count _ _ hnodup hfresh k hk
  · intro MONITORS registry0 portFree sched hv0 hne w hwm hpw
    have hinv := run_procInv validName MONITORS sched _
      (boot_procInv MONITORS registry0 portFree)
    have hk := (boot_keyInv validName MONITORS hv0 hne registry0 portFree sched).1 w hwm
    simp only [keyInv, hpw] at hk
    obtain ⟨s1, a1, a2⟩ := hk
    refine ⟨s1, a1, a2, ?_, ?_⟩
    · exact (List.nodup_flatMap.mp hinv.2.2.1).1 w hwm
    · intro x hx
      exact hinv.2.2.2 x (List.mem_flatMap.mpr ⟨w, hwm, hx⟩)

/-- C1 (amended), at the monitor `disk` with the field `free_pct`, just started
on an empty registry: after its eight set-up steps the registry is
`disk_errors`, `disk_uptime`, `disk_free_pct`. -/
theorem C1_registered_names_witness :
    (run legacyValidName
      (run legacyValidName
        (boot [(diskMonitor, { script := [], current := 0 })] [] true) [none])
      (steps 0 8)).core.registry = ["disk_errors", "disk_uptime", "disk_free_pct"] :=
  (C1_registered_names legacyValidName
    (run legacyValidName (boot [(diskMonitor, { script := [], current := 0 })] [] true) [none])
    0 (goStartMonitor (diskMonitor, { script := [], current := 0 })
      (NewTicker 0 (Millisecond * 500)))
    { script := [], current := 0 } rfl rfl rfl rfl rfl
    (by decide) (by decide) (by decide) (by decide) (by decide)).1.2.1

/-! ## When a registration fails -/

theorem step_exited_register {σ V : Type} (validName : String → Bool) (p : Proc σ V)
    (i : Nat) (u : PollUnit σ V) (m : Collector) (F : Fatal) (hex : p.exited = none)
    (hu : p.units[i]? = some u)
    (h : (unitStep validName p.core u).2.2 =
      match Register validName p.core.registry m with
      | none => some F
      | some _ => none) :
    ((step validName p (some i)).exited = some F ↔
        (validName m.fqName = false ∨ m.fqName ∈ p.core.registry)) ∧
    ((step validName p (some i)).exited = none ↔
        ¬ (validName m.fqName = false ∨ m.fqName ∈ p.core.registry)) := by
  have e1 : (step validName p (some i)).exited = (unitStep validName p.core u).2.2 := by
    simp only [step, hex, hu]
  rw [e1, h]
  cases hR : Register validName p.core.registry m with
  | none =>
    have hc := (Register_none_iff _ _ _).mp hR
    exact ⟨⟨fun _ => hc, fun _ => rfl⟩, ⟨fun h => (by cases h), fun h => absurd hc h⟩⟩
  | some r =>
    obtain ⟨h1, h2, _⟩ := (Register_some_iff _ _ _ _).mp hR
    have hc : ¬ (validName m.fqName = false ∨ m.fqName ∈ p.core.registry) := by
      rintro (h | h)
      · rw [h1] at h; cases h
      · exact h2 h
    exact ⟨⟨fun h => (by cases h), fun h => absurd h hc⟩, ⟨fun _ => hc, fun _ => rfl⟩⟩

theorem unitStep_fatal_dead {σ V : Type} (validName : String → Bool) (c : Core)
    (u : PollUnit σ V) (e : Fatal) (h : (unitStep validName c u).2.2 = some e) :
    (unitStep validName c u).2.1.pc = Pc.dead ∧
      (unitStep validName c u).2.1.updates = u.updates ∧
      (unitStep validName c u).2.1.registered = u.registered ∧
      (unitStep validName c u).1 = c := by
  cases hpc : u.pc with
  | init =>
    cases hI : u.mon.Init u.st with
    | none => simp only [unitStep, hpc, hI]; exact ⟨trivial, trivial, trivial, trivial⟩
    | some st1 => simp only [unitStep, hpc, hI] at h; cases h
  | regErrors =>
    cases hR : Register validName c.registry (errMetricOf u.mon) with
    | none => simp only [unitStep, hpc, MustRegister, hR]; exact ⟨trivial, trivial, trivial, trivial⟩
    | some r => simp only [unitStep, hpc, MustRegister, hR] at h; cases h
  | regUptime =>
    cases hR : Register validName c.registry (uptimeMetricOf u.mon) with
    | none => simp only [unitStep, hpc, MustRegister, hR]; exact ⟨trivial, trivial, trivial, trivial⟩
    | some r => simp only [unitStep, hpc, MustRegister, hR] at h; cases h
  | fieldLoop rest =>
    cases rest with
    | nil => simp only [unitStep, hpc] at h; cases h
    | cons field rest =>
      cases hw : c.mapWriting with
      | true => simp [unitStep, hpc, hw]
      | false => simp [unitStep, hpc, hw] at h
  | fieldStore field rest =>
    cases hw : c.mapWriting with
    | true => simp [unitStep, hpc, hw] at h
    | false => simp [unitStep, hpc, hw]
  | fieldLoad field rest =>
    cases hw : c.mapWriting with
    | true => simp [unitStep, hpc, hw]
    | false => simp [unitStep, hpc, hw] at h
  | fieldRegister field read rest =>
    cases read with
    | none => simp only [unitStep, hpc]; exact ⟨trivial, trivial, trivial, trivial⟩
    | some col =>
      cases hR : Register validName c.registry col with
      | none => simp only [unitStep, hpc, hR]; exact ⟨trivial, trivial, trivial, trivial⟩
      | some r => simp only [unitStep, hpc, hR] at h; cases h
  | polling => simp only [unitStep, hpc] at h; cases h
  | dead => simp only [unitStep, hpc] at h; cases h

theorem unitStep_fatal_cases {σ V : Type} (validName : String → Bool) (c : Core)
    (u : PollUnit σ V) (e : Fatal) (h : (unitStep validName c u).2.2 = some e) :
    (u.pc = Pc.init ∧ u.mon.Init u.st = none ∧ e = Fatal.initAborted) ∨
    (u.pc = Pc.regErrors ∧ e = Fatal.mustRegisterPanic (errMetricOf u.mon).fqName ∧
      (validName (errMetricOf u.mon).fqName = false ∨
        (errMetricOf u.mon).fqName ∈ c.registry)) ∨
    (u.pc = Pc.regUptime ∧ e = Fatal.mustRegisterPanic (uptimeMetricOf u.mon).fqName ∧
      (validName (uptimeMetricOf u.mon).fqName = false ∨
        (uptimeMetricOf u.mon).fqName ∈ c.registry)) ∨
    (∃ field col rest, u.pc = Pc.fieldRegister field (some col) rest ∧
      e = Fatal.registerFailed (getFieldKey u.mon field) ∧
      (validName col.fqName = false ∨ col.fqName ∈ c.registry)) ∨
    (∃ field rest, u.pc = Pc.fieldLoop (field :: rest) ∧ c.mapWriting = true ∧
      e = Fatal.concurrentMapWrites) ∨
    (∃ field rest, u.pc = Pc.fieldStore field rest ∧ c.mapWriting = false ∧
      e = Fatal.concurrentMapWrites) ∨
    (∃ field rest, u.pc = Pc.fieldLoad field rest ∧ c.mapWriting = true ∧
      e = Fatal.concurrentMapReadWrite) ∨
    (∃ field rest, u.pc = Pc.fieldRegister field none rest ∧ e = Fatal.nilCollector) := by
  cases hpc : u.pc with
  | init =>
    cases hI : u.mon.Init u.st with
    | none =>
      simp only [unitStep, hpc, hI] at h
      cases h
      exact Or.inl ⟨rfl, rfl, rfl⟩
    | some st1 => simp only [unitStep, hpc, hI] at h; cases h
  | regErrors =>
    cases hR : Register validName c.registry (errMetricOf u.mon) with
    | none =>
      simp only [unitStep, hpc, MustRegister, hR] at h
      cases h
      exact Or.inr (Or.inl ⟨rfl, rfl, (Register_none_iff _ _ _).mp hR⟩)
    | some r => simp only [unitStep, hpc, MustRegister, hR] at h; cases h
  | regUptime =>
    cases hR : Register validName c.registry (uptimeMetricOf u.mon) with
    | none =>
      simp only [unitStep, hpc, MustRegister, hR] at h
      cases h
      exact Or.inr (Or.inr (Or.inl ⟨rfl, rfl, (Register_none_iff _ _ _).mp hR⟩))
    | some r => simp only [unitStep, hpc, MustRegister, hR] at h; cases h
  | fieldLoop rest =>
    cases rest with
    | nil => simp only [unitStep, hpc] at h; cases h
    | cons field rest =>
      cases hw : c.mapWriting with
      | true =>
        simp [unitStep, hpc, hw] at h
        exact Or.inr (Or.inr (Or.inr (Or.inr (Or.inl ⟨field, rest, rfl, rfl, h.symm⟩))))
      | false => simp [unitStep, hpc, hw] at h
  | fieldStore field rest =>
    cases hw : c.mapWriting with
    | true => simp [unitStep, hpc, hw] at h
    | false =>
      simp [unitStep, hpc, hw] at h
      exact Or.inr (Or.inr (Or.inr (Or.inr (Or.inr (Or.inl ⟨field, rest, rfl, rfl, h.symm⟩)))))
  | fieldLoad field rest =>
    cases hw : c.mapWriting with
    | true =>
      simp [unitStep, hpc, hw] at h
      exact Or.inr (Or.inr (Or.inr (Or.inr (Or.inr (Or.inr
        (Or.inl ⟨field, rest, rfl, rfl, h.symm⟩))))))
    | false => simp [unitStep, hpc, hw] at h
  | fieldRegister field read rest =>
    cases read with
    | none =>
      simp only [unitStep, hpc] at h
      cases h
      exact Or.inr (Or.inr (Or.inr (Or.inr (Or.inr (Or.inr (Or.inr ⟨field, rest, rfl, rfl⟩))))))
    | some col =>
      cases hR : Register validName c.registry col with
      | none =>
        simp only [unitStep, hpc, hR] at h
        cases h
        exact Or.inr (Or.inr (Or.inr (Or.inl
          ⟨field, col, rest, rfl, rfl, (Register_none_iff _ _ _).mp hR⟩)))
      | some r => simp only [unitStep, hpc, hR] at h; cases h
  | polling => simp only [unitStep, hpc] at h; cases h
  | dead => simp only [unitStep, hpc] at h; cases h

/-- C2 (as stated): the monitor `disk` with an empty field name fails to
register its field on an empty registry although none of its keys is in the
registry or repeated; and a monitor with the empty name and the field `_a`
registers and polls although its key `__a` is in the registry. -/
theorem C2_counterexample :
    ((metricKeys (scriptedMonitor "disk" [""]) [""]).Nodup ∧
      (run legacyValidName
        (boot [(scriptedMonitor "disk" [""], { script := [], current := 0 })] [] true)
        ([none] ++ steps 0 6)).core.registry = ["disk_errors", "disk_uptime"] ∧
      getFieldKey (scriptedMonitor "disk" [""]) "" = "disk_" ∧
      (run legacyValidName
        (boot [(scriptedMonitor "disk" [""], { script := [], current := 0 })] [] true)
        ([none] ++ steps 0 6)).exited = none ∧
      (run legacyValidName
        (boot [(scriptedMonitor "disk" [""], { script := [], current := 0 })] [] true)
        ([none] ++ steps 0 7)).exited = some (Fatal.registerFailed "disk_")) ∧
    (getFieldKey (scriptedMonitor "" ["_a"]) "_a" ∈ ["__a"] ∧
      (run legacyValidName
        (boot [(scriptedMonitor "" ["_a"], { script := [], current := 0 })] ["__a"] true)
        ([none] ++ steps 0 8)).units.map (fun w => (w.pc, w.registered))
        = [(Pc.polling, ["errors", "uptime", "_a"])] ∧
      (run legacyValidName
        (boot [(scriptedMonitor "" ["_a"], { script := [], current := 0 })] ["__a"] true)
        ([none] ++ steps 0 8)).exited = none) := by
  decide

/-- C2 (amended): in a running process, the step in which a goroutine calls
`MustRegister` on its error counter or on its uptime gauge, or `Register` on
the collector it read back for a field, ends the process with the
registration error if and only if the exported name of that collector is not
a valid metric name or is in the registry at that moment, and otherwise leaves
the process running; whenever a step of a goroutine ends the process, the
goroutine is ended without having entered its polling loop, nothing changes
any more, and the step was such a failed registration, a failed `Init`, or an
access to the map that the runtime refuses.  In every execution in which no monitor has the empty name
(the empty string being no valid metric name), the collector read back for a
field is exported under the key of that field or under the empty name. -/
theorem C2_registration_fails_iff {σ V : Type} (validName : String → Bool) (p : Proc σ V)
    (i : Nat) (u : PollUnit σ V) (hex : p.exited = none) (hu : p.units[i]? = some u) :
    (u.pc = Pc.regErrors →
      ((step validName p (some i)).exited
          = some (Fatal.mustRegisterPanic (errMetricOf u.mon).fqName) ↔
        (validName (errMetricOf u.mon).fqName = false ∨
          (errMetricOf u.mon).fqName ∈ p.core.registry)) ∧
      ((step validName p (some i)).exited = none ↔
        ¬ (validName (errMetricOf u.mon).fqName = false ∨
          (errMetricOf u.mon).fqName ∈ p.core.registry))) ∧
    (u.pc = Pc.regUptime →
      ((step validName p (some i)).exited
          = some (Fatal.mustRegisterPanic (uptimeMetricOf u.mon).fqName) ↔
        (validName (uptimeMetricOf u.mon).fqName = false ∨
          (uptimeMetricOf u.mon).fqName ∈ p.core.registry)) ∧
      ((step validName p (some i)).exited = none ↔
        ¬ (validName (uptimeMetricOf u.mon).fqName = false ∨
          (uptimeMetricOf u.mon).fqName ∈ p.core.registry))) ∧
    (∀ (field : String) (col : Collector) (rest : List String),
      u.pc = Pc.fieldRegister field (some col) rest →
      ((step validName p (some i)).exited
          = some (Fatal.registerFailed (getFieldKey u.mon field)) ↔
        (validName col.fqName = false ∨ col.fqName ∈ p.core.registry)) ∧
      ((step validName p (some i)).exited = none ↔
        ¬ (validName col.fqName = false ∨ col.fqName ∈ p.core.registry))) ∧
    (∀ e, (step validName p (some i)).exited = some e →
      (∃ w, (step validName p (some i)).units[i]? = some w ∧ w.pc = Pc.dead ∧
        w.updates = u.updates ∧ w.registered = u.registered) ∧
      (step validName p (some i)).core = p.core ∧
      (∀ more, run validName (step validName p (some i)) more = step validName p (some i)) ∧
      ((u.pc = Pc.init ∧ u.mon.Init u.st = none ∧ e = Fatal.initAborted) ∨
        (u.pc = Pc.regErrors ∧ e = Fatal.mustRegisterPanic (errMetricOf u.mon).fqName ∧
          (validName (errMetricOf u.mon).fqName = false ∨
            (errMetricOf u.mon).fqName ∈ p.core.registry)) ∨
        (u.pc = Pc.regUptime ∧ e = Fatal.mustRegisterPanic (uptimeMetricOf u.mon).fqName ∧
          (validName (uptimeMetricOf u.mon).fqName = false ∨
            (uptimeMetricOf u.mon).fqName ∈ p.core.registry)) ∨
        (∃ field col rest, u.pc = Pc.fieldRegister field (some col) rest ∧
          e = Fatal.registerFailed (getFieldKey u.mon field) ∧
          (validName col.fqName = false ∨ col.fqName ∈ p.core.registry)) ∨
        (∃ field rest, u.pc = Pc.fieldLoop (field :: rest) ∧ p.core.mapWriting = true ∧
          e = Fatal.concurrentMapWrites) ∨
        (∃ field rest, u.pc = Pc.fieldStore field rest ∧ p.core.mapWriting = false ∧
          e = Fatal.concurrentMapWrites) ∨
        (∃ field rest, u.pc = Pc.fieldLoad field rest ∧ p.core.mapWriting = true ∧
          e = Fatal.concurrentMapReadWrite) ∨
        (∃ field rest, u.pc = Pc.fieldRegister field none rest ∧ e = Fatal.nilCollector))) ∧
    (∀ (MONITORS : List (Monitor σ V × σ)) (registry0 : List String) (portFree : Bool)
        (sched : List (Option Nat)),
      validName "" = false → (∀ m ∈ MONITORS, m.1.Name ≠ "") →
      ∀ w ∈ (run validName (boot MONITORS registry0 portFree) sched).units,
        ∀ (field : String) (col : Collector) (rest : List String),
          w.pc = Pc.fieldRegister field (some col) rest →
          col.fqName = getFieldKey w.mon field ∨ col.fqName = "") := by
  refine ⟨?_, ?_, ?_, ?_, ?_⟩
  · intro hpc
    apply step_exited_register validName p i u (errMetricOf u.mon) _ hex hu
    cases hR : Register validName p.core.registry (errMetricOf u.mon) <;>
      simp only [unitStep, hpc, MustRegister, hR]
  · intro hpc
    apply step_exited_register validName p i u (uptimeMetricOf u.mon) _ hex hu
    cases hR : Register validName p.core.registry (uptimeMetricOf u.mon) <;>
      simp only [unitStep, hpc, MustRegister, hR]
  · intro field col rest hpc
    apply step_exited_register validName p i u col _ hex hu
    cases hR : Register validName p.core.registry col <;>
      simp only [unitStep, hpc, hR]
  · intro e he
    have hlt : i < p.units.length := (List.getElem?_eq_some.mp hu).1
    have e1 : step validName p (some i) =
        { p with core := (unitStep validName p.core u).1,
                 units := p.units.set i (unitStep validName p.core u).2.1,
                 exited := (unitStep validName p.core u).2.2 } := by
      simp only [step, hex, hu]
    have he2 : (unitStep validName p.core u).2.2 = some e := by
      rw [e1] at he; exact he
    obtain ⟨d1, d2, d3, d4⟩ := unitStep_fatal_dead validName p.core u e he2
    refine ⟨?_, ?_, fun more => run_exited validName more _ (by rw [he]; simp),
      unitStep_fatal_cases validName p.core u e he2⟩
    · rw [e1]
      exact ⟨_, List.getElem?_set_self hlt, d1, d2, d3⟩
    · rw [e1]
      exact d4
  · intro MONITORS registry0 portFree sched hv0 hne w hwm field col rest hpw
    have hk := (boot_keyInv validName MONITORS hv0 hne registry0 portFree sched).1 w hwm
    simp only [keyInv, hpw] at hk
    exact hk.2 col rfl

/-- C2 (amended), at the monitor `disk` when `disk_free_pct` is in the registry
from the start: the step in which the goroutine calls `Register` for its
field ends the process. -/
theorem C2_registration_fails_iff_witness :
    (step legacyValidName
      (run legacyValidName
        (boot [(diskMonitor, { script := [], current := 0 })] ["disk_free_pct"] true)
        [none, some 0, some 0, some 0, some 0, some 0, some 0])
      (some 0)).exited = some (Fatal.registerFailed "disk_free_pct") :=
  ((C2_registration_fails_iff legacyValidName
    (run legacyValidName
      (boot [(diskMonitor, { script := [], current := 0 })] ["disk_free_pct"] true)
      [none, some 0, some 0, some 0, some 0, some 0, some 0])
    0 _ rfl rfl).2.2.1 "free_pct" (fieldMetricOf diskMonitor "free_pct") [] rfl).1.mpr
    (Or.inr (by decide))

end Sysmond
